import Mathlib

set_option maxRecDepth 100000

/-!
Verification development for `fix_all_errcheck.py`, a source-rewriting tool
that scans a tree of Go files and rewrites statements discarding error
return values.

The script's rewriting core is a fixed family of `re.sub` calls whose
patterns all share one shape: a captured whitespace run `(\s+)`, a literal
callee text (possibly one of several alternatives), optionally a
parenthesised argument `([^)]+)\)`, and optionally a lookahead guard
(`(?!\s*//)` or `(?=\s*(?://|$|\n))`).  The replacement re-emits the
captured whitespace followed by a fixed template, splicing the captured
argument back in.  The embedding below implements exactly this fragment of
Python's regex semantics over `List Char`:

* `\s+` is greedy; because every literal alternative begins with a
  non-whitespace character, a match from a given start position succeeds
  iff the literal (and the rest of the pattern) matches at the end of the
  maximal whitespace run, so the matcher takes the maximal run.
* `[^)]+` is greedy and can never include `)`, so backtracking cannot
  produce any other split: the argument is the maximal run of
  non-`)` characters, which must be nonempty and followed by `)`.
* `(?!\s*//)` fails iff `//` follows the maximal whitespace run (shorter
  runs end at a whitespace character, never at `/`).
* `(?=\s*(?://|$|\n))` succeeds iff the maximal whitespace run contains a
  newline, or runs to the end of the text, or is followed by `//`
  (`$` without `re.MULTILINE` matches only at the end or before a final
  newline, which is subsumed by the first two disjuncts).
* `re.sub` scans left to right and never rescans a replacement within the
  same call.
* In a replacement template Python keeps a backslash that precedes a
  non-letter character.  The script interpolates the *regex-escaped*
  pattern text (`rows\.Close\(\)` and the like) into several replacement
  templates, so those backslashes are emitted verbatim into the output.
  The embedding reproduces this faithfully: a rule carries the raw pattern
  text for its replacement and the unescaped literal for matching.
-/

namespace Errcheck

/-- File contents as a list of characters. -/
abbrev Text := List Char

/-- Python's `\s` on the ASCII range: space, tab, newline, carriage return,
vertical tab, form feed.  (Python `str` patterns also accept some non-ASCII
Unicode whitespace; the Go sources processed by the tool are ASCII, and the
patterns' literals are ASCII, so the embedding fixes the ASCII set.) -/
def wsChar (c : Char) : Bool :=
  c = ' ' || c = '\t' || c = '\n' || c = '\r' || c = '\x0b' || c = '\x0c'

/-- Boolean prefix test: `pfx n h` is true iff `n` is a prefix of `h`. -/
def pfx : Text → Text → Bool
  | [], _ => true
  | _ :: _, [] => false
  | a :: x, b :: y => a = b && pfx x y

/-- The lookahead guards appearing in the script's patterns. -/
inductive Guard where
  | gnone
  | notComment
  | commentOrEol

/-- One literal alternative of a pattern: the literal matched after the
whitespace run, and the replacement text emitted before and (for patterns
with an argument group) after the captured argument. -/
structure Alt where
  lit : Text
  replPre : Text
  replPost : Text

/-- A pattern of the shape `(\s+)(lit₁|…)` `[([^)]+)\)]` `[guard]` together
with its replacement template `\1…[\2…]`. -/
structure Pat where
  alts : List Alt
  hasArg : Bool
  guard : Guard

/-- Evaluate a lookahead guard against the text following the match. -/
def guardOk : Guard → Text → Bool
  | Guard.gnone, _ => true
  | Guard.notComment, t =>
    !(pfx "//".toList (t.drop (t.takeWhile wsChar).length))
  | Guard.commentOrEol, t =>
    let w := t.takeWhile wsChar
    w.contains '\n' || (t.drop w.length).isEmpty || pfx "//".toList (t.drop w.length)

/-- Try one literal alternative against the text following the whitespace
run.  Returns the replacement core (without the re-emitted whitespace) and
the text remaining after the match. -/
def tryAlt (p : Pat) (a : Alt) (rest : Text) : Option (Text × Text) :=
  if pfx a.lit rest then
    let r1 := rest.drop a.lit.length
    if p.hasArg then
      let arg := r1.takeWhile (fun c => c ≠ ')')
      match r1.drop arg.length with
      | ')' :: r3 =>
        if !arg.isEmpty && guardOk p.guard r3 then
          some (a.replPre ++ arg ++ a.replPost, r3)
        else none
      | _ => none
    else
      if guardOk p.guard r1 then some (a.replPre, r1) else none
  else none

/-- Try the alternatives in order (regex alternation). -/
def tryAlts (p : Pat) : List Alt → Text → Option (Text × Text)
  | [], _ => none
  | a :: rs, rest =>
    match tryAlt p a rest with
    | some r => some r
    | none => tryAlts p rs rest

/-- Try to match the pattern at the start of `s`: a nonempty whitespace run,
then one of the alternatives.  Returns the full replacement (whitespace run
re-emitted, as `\1` does) and the remaining text. -/
def tryMatch (p : Pat) (s : Text) : Option (Text × Text) :=
  let w := s.takeWhile wsChar
  if w.isEmpty then none
  else
    match tryAlts p p.alts (s.drop w.length) with
    | some (core, rest) => some (w ++ core, rest)
    | none => none

/-- Fuelled left-to-right scan-and-replace: at each position try the
pattern; on a match emit the replacement and continue after the matched
region, otherwise copy one character.  Replacements are never rescanned,
exactly as in a single `re.sub` call.  One unit of fuel is spent per step
and every step consumes at least one character, so `l.length` fuel always
suffices. -/
def scanF (p : Pat) : Nat → Text → Text
  | _, [] => []
  | 0, l => l
  | fuel + 1, c :: rest =>
    match tryMatch p (c :: rest) with
    | some (repl, rest2) => repl ++ scanF p fuel rest2
    | none => c :: scanF p fuel rest

/-- `re.sub` for the pattern fragment described above. -/
def reSub (p : Pat) (l : Text) : Text := scanF p l.length l

/-- Does the pattern match anywhere in `l`?  (`true` iff `re.search` would
find a match, i.e. iff `reSub` rewrites anything.) -/
def hasSiteB (p : Pat) : Text → Bool
  | [] => false
  | c :: rest => (tryMatch p (c :: rest)).isSome || hasSiteB p rest

/-- The literal denoted by a regex consisting of literal characters and
backslash escapes (`rows\.Close\(\)` denotes `rows.Close()`): a backslash
escapes the following character. -/
def regexLit : Text → Text
  | [] => []
  | '\\' :: c :: rest => c :: regexLit rest
  | c :: rest => c :: regexLit rest

/-- `fix_defer_close(content, pattern)`: `re.sub(rf'(\s+)defer {pattern}',
rf'\1defer func() {{ _ = {pattern} }}() // Best-effort close', content)`.
The pattern text is interpolated into the replacement template, where
Python keeps its backslashes (they precede non-letter characters). -/
def deferClosePat (pattern : Text) : Pat :=
  ⟨[⟨"defer ".toList ++ regexLit pattern,
     "defer func() \x7b _ = ".toList ++ pattern ++ " \x7d() // Best-effort close".toList,
     []⟩],
   false, Guard.gnone⟩

/-- Source `fix_defer_close` (lines 11–17). -/
def fix_defer_close (pattern content : Text) : Text :=
  reSub (deferClosePat pattern) content

/-- Source `fix_defer_rollback` (lines 19–25); here the replacement is a
plain raw string, so it contains no backslashes. -/
def fix_defer_rollback (content : Text) : Text :=
  reSub ⟨[⟨"defer tx.Rollback()".toList,
          "defer func() \x7b _ = tx.Rollback() \x7d() // Best-effort rollback".toList,
          []⟩],
         false, Guard.gnone⟩ content

/-- `fix_ignored_close(content, pattern)`: `re.sub(rf'(\s+){pattern}',
rf'\1_ = {pattern} // Best-effort close', content)`; the replacement again
carries the escaped pattern text verbatim. -/
def ignoredClosePat (pattern : Text) : Pat :=
  ⟨[⟨regexLit pattern,
     "_ = ".toList ++ pattern ++ " // Best-effort close".toList,
     []⟩],
   false, Guard.gnone⟩

/-- Source `fix_ignored_close` (lines 27–33). -/
def fix_ignored_close (pattern content : Text) : Text :=
  reSub (ignoredClosePat pattern) content

/-- The pattern of source `fix_write_calls` (lines 35–42):
`(\s+)w\.Write\(([^)]+)\)(?!\s*//)` with replacement
`\1_, _ = w.Write(\2) // Error logged by HTTP framework`. -/
def writePat : Pat :=
  ⟨[⟨"w.Write(".toList,
     "_, _ = w.Write(".toList,
     ") // Error logged by HTTP framework".toList⟩],
   true, Guard.notComment⟩

/-- Source `fix_write_calls` (lines 35–42). -/
def fix_write_calls (content : Text) : Text := reSub writePat content

/-- Source `fix_event_logger_calls` (lines 44–50). -/
def fix_event_logger_calls (content : Text) : Text :=
  reSub ⟨[⟨"s.eventLogger.LogSecurityEvent(".toList,
          "_ = s.eventLogger.LogSecurityEvent(".toList, []⟩],
         false, Guard.gnone⟩ content

/-- Source `fix_rand_read` (lines 52–58). -/
def fix_rand_read (content : Text) : Text :=
  reSub ⟨[⟨"rand.Read(".toList,
          "_, _ = rand.Read(".toList,
          ") // crypto/rand.Read errors are rare".toList⟩],
         true, Guard.gnone⟩ content

/-- Source `fix_update_failed_calls` (lines 60–66); the alternation
`Update(Backup|Request)Failed` and backreference `\2` amount to two
literal alternatives with their own replacements. -/
def fix_update_failed_calls (content : Text) : Text :=
  reSub ⟨[⟨"s.store.UpdateBackupFailed(".toList,
          "_ = s.store.UpdateBackupFailed(".toList, []⟩,
         ⟨"s.store.UpdateRequestFailed(".toList,
          "_ = s.store.UpdateRequestFailed(".toList, []⟩],
         false, Guard.gnone⟩ content

/-- Source `fix_audit_log_calls` (lines 68–74). -/
def fix_audit_log_calls (content : Text) : Text :=
  reSub ⟨[⟨"s.CreateAuditLog(".toList,
          "_ = s.CreateAuditLog(".toList, []⟩],
         false, Guard.gnone⟩ content

/-- Source `fix_json_encode` (lines 76–82); the template's `\n` and `\t`
are recognised escapes and denote newline and tab. -/
def fix_json_encode (content : Text) : Text :=
  reSub ⟨[⟨"json.NewEncoder(w).Encode(".toList,
          "if err := json.NewEncoder(w).Encode(".toList,
          "); err != nil \x7b\n\t\t// Error encoding response - already logged by HTTP layer\n\t\x7d".toList⟩],
         true, Guard.gnone⟩ content

/-- Source `fix_pprof_calls` (lines 84–96): two successive substitutions. -/
def fix_pprof_calls (content : Text) : Text :=
  reSub ⟨[⟨"pprof.Lookup(\"goroutine\").WriteTo(w, 2)".toList,
          "_ = pprof.Lookup(\"goroutine\").WriteTo(w, 2) // Best-effort profiling".toList, []⟩],
         false, Guard.gnone⟩
    (reSub ⟨[⟨"pprof.WriteHeapProfile(w)".toList,
             "_ = pprof.WriteHeapProfile(w) // Best-effort profiling".toList, []⟩],
            false, Guard.gnone⟩ content)

/-- Source `fix_sscanf_calls` (lines 98–104). -/
def fix_sscanf_calls (content : Text) : Text :=
  reSub ⟨[⟨"fmt.Sscanf(".toList, "_, _ = fmt.Sscanf(".toList, []⟩],
         false, Guard.gnone⟩ content

/-- Source `fix_io_copy` (lines 106–112). -/
def fix_io_copy (content : Text) : Text :=
  reSub ⟨[⟨"io.Copy(".toList, "_, _ = io.Copy(".toList, []⟩],
         false, Guard.gnone⟩ content

/-- Source `fix_test_helpers` (lines 114–146): five successive
substitutions, the last one (`rows.Scan`) guarded by the lookahead
`(?=\s*(?://|$|\n))`. -/
def fix_test_helpers (content : Text) : Text :=
  reSub ⟨[⟨"rows.Scan(".toList,
          "_ = rows.Scan(".toList,
          ") // Best-effort scan in verification".toList⟩],
         true, Guard.commentOrEol⟩
  (reSub ⟨[⟨"connStore.Create(".toList, "_ = connStore.Create(".toList, []⟩],
          false, Guard.gnone⟩
  (reSub ⟨[⟨"syncStore.ListAccessibleConnections(".toList,
           "_ = syncStore.ListAccessibleConnections(".toList, []⟩],
          false, Guard.gnone⟩
  (reSub ⟨[⟨"s.InvalidateSchemaCache(".toList,
           "_ = s.InvalidateSchemaCache(".toList, []⟩],
          false, Guard.gnone⟩
  (reSub ⟨[⟨"testDB.InsertTestUser(".toList,
           "_ = testDB.InsertTestUser(".toList, []⟩],
          false, Guard.gnone⟩ content))))

/-- The mock-service call names listed in source `fix_mock_service_calls`
(lines 150–157). -/
def mockPatterns : List Text :=
  ["mockSvc.SendVerificationEmail".toList,
   "mockSvc.SendPasswordResetEmail".toList,
   "mockSvc.SendWelcomeEmail".toList,
   "mockSvc.SendOrganizationInvitationEmail".toList,
   "mockSvc.SendOrganizationWelcomeEmail".toList,
   "mockSvc.SendMemberRemovedEmail".toList]

/-- Pattern of one iteration of the loop in `fix_mock_service_calls`:
`rf'(\s+){re.escape(name)}\('` → `rf'\1_ = {name}('` (here the replacement
interpolates the unescaped name, so it carries no backslashes). -/
def mockPat (name : Text) : Pat :=
  ⟨[⟨name ++ ['('], "_ = ".toList ++ name ++ ['('], []⟩], false, Guard.gnone⟩

/-- Source `fix_mock_service_calls` (lines 148–164). -/
def fix_mock_service_calls (content : Text) : Text :=
  mockPatterns.foldl (fun c name => reSub (mockPat name) c) content

/-- The full ordered rule application of source `fix_file` (lines 172–212):
every rule applied in sequence to one file's text. -/
def applyAllFixes (content : Text) : Text :=
  let c := fix_defer_close "rows\\.Close\\(\\)".toList content
  let c := fix_defer_close "r\\.Body\\.Close\\(\\)".toList c
  let c := fix_defer_close "cursor\\.Close\\(ctx\\)".toList c
  let c := fix_defer_rollback c
  let c := fix_ignored_close "resp\\.Body\\.Close\\(\\)".toList c
  let c := fix_ignored_close "db\\.Close\\(\\)".toList c
  let c := fix_ignored_close "conn\\.Close\\(\\)".toList c
  let c := fix_ignored_close "listener\\.Close\\(\\)".toList c
  let c := fix_ignored_close "colRows\\.Close\\(\\)".toList c
  let c := fix_ignored_close "sshClient\\.Close\\(\\)".toList c
  let c := fix_ignored_close "tunnel\\.listener\\.Close\\(\\)".toList c
  let c := fix_ignored_close "tunnel\\.sshClient\\.Close\\(\\)".toList c
  let c := fix_ignored_close "client\\.Disconnect\\(ctx\\)".toList c
  let c := fix_ignored_close "m\\.client\\.Disconnect\\(context\\.Background\\(\\)\\)".toList c
  let c := fix_ignored_close "c\\.pool\\.Close\\(\\)".toList c
  let c := fix_ignored_close "m\\.pool\\.Close\\(\\)".toList c
  let c := fix_ignored_close "p\\.pool\\.Close\\(\\)".toList c
  let c := fix_ignored_close "s\\.pool\\.Close\\(\\)".toList c
  let c := fix_ignored_close "p\\.db\\.Close\\(\\)".toList c
  let c := fix_ignored_close "indexCursor\\.Close\\(ctx\\)".toList c
  let c := fix_ignored_close "manager\\.Close\\(\\)".toList c
  let c := fix_ignored_close "storage\\.Close\\(\\)".toList c
  let c := fix_ignored_close "es\\.Disconnect\\(\\)".toList c
  let c := fix_ignored_close "os\\.Disconnect\\(\\)".toList c
  let c := fix_ignored_close "suite\\.testDB\\.Close\\(\\)".toList c
  let c := fix_ignored_close "testDB\\.Close\\(\\)".toList c
  let c := fix_write_calls c
  let c := fix_event_logger_calls c
  let c := fix_rand_read c
  let c := fix_update_failed_calls c
  let c := fix_audit_log_calls c
  let c := fix_pprof_calls c
  let c := fix_sscanf_calls c
  let c := fix_io_copy c
  let c := fix_test_helpers c
  let c := fix_mock_service_calls c
  c

/-!
The file-system collaborator and the driver.  `fix_file` reads a file,
applies the rule chain, and writes the result back only when it differs
from the original; any read or write exception is caught, reported on the
error stream as `Error processing {path}: {cause}`, and turns the file's
outcome into "not fixed" without affecting any other file.  `main`
enumerates the candidate files (the recursive `*.go` glob is the
collaborator and is modelled as the given file list), prints the two
header lines, runs `fix_file` on every file while counting the fixed ones,
and prints the footer.  The model represents one file of the tree together
with the outcome its I/O operations would have: `readOk = false` means
`read_text` raises (with message `readErr`), `writeOk = false` means
`write_text` raises (with message `writeErr`).
-/

/-- One candidate file of the traversal, together with the behaviour of
the file-system collaborator on it. -/
structure FileSt where
  path : String
  content : Text
  readOk : Bool
  readErr : String
  writeOk : Bool
  writeErr : String

/-- Everything one `fix_file` call does: the text written back (if any),
the returned flag, and the lines printed to stdout and stderr. -/
structure FixResult where
  written : Option Text
  fixed : Bool
  out : List String
  err : List String

/-- Source `fix_file` (lines 166–223): read, apply all fixes, write back
only when the text changed, print `Fixed: {path}` on success; on a read or
write exception print an error record naming the path and cause to stderr
and return `False`. -/
def fix_file (f : FileSt) : FixResult :=
  if f.readOk then
    let c := applyAllFixes f.content
    if c = f.content then
      ⟨none, false, [], []⟩
    else if f.writeOk then
      ⟨some c, true, ["Fixed: " ++ f.path], []⟩
    else
      ⟨none, false, [], ["Error processing " ++ f.path ++ ": " ++ f.writeErr]⟩
  else
    ⟨none, false, [], ["Error processing " ++ f.path ++ ": " ++ f.readErr]⟩

/-- Aggregate outcome of a run: the stdout stream (one entry per `print`
call), the stderr stream, the writes performed (path and complete new
text, in order), and the final count of fixed files. -/
structure MainResult where
  stdout : List String
  stderr : List String
  writes : List (String × Text)
  fixedCount : Nat

/-- The traversal loop of source `main` (lines 232–235): run `fix_file` on
every file in order, collecting output and counting fixed files; no
per-file outcome ever stops the loop. -/
def runFiles : List FileSt → MainResult
  | [] => ⟨[], [], [], 0⟩
  | f :: fs =>
    let r := fix_file f
    let rest := runFiles fs
    ⟨r.out ++ rest.stdout,
     r.err ++ rest.stderr,
     (match r.written with
      | some t => [(f.path, t)]
      | none => []) ++ rest.writes,
     (if r.fixed then 1 else 0) + rest.fixedCount⟩

/-- The closing recommendation printed by source `main` (line 238). -/
def lintAdvice : String :=
  "\nRun \x27golangci-lint run --enable-only=errcheck ./...\x27 to verify"

/-- Source `main` (lines 225–238) applied to the discovered candidate
list: header lines, the traversal, and the footer lines. -/
def mainRun (files : List FileSt) : MainResult :=
  let r := runFiles files
  ⟨["Found " ++ toString files.length ++ " Go files",
    "Applying errcheck fixes..."]
     ++ r.stdout
     ++ ["\nFixed " ++ toString r.fixedCount ++ " files", lintAdvice],
   r.stderr, r.writes, r.fixedCount⟩

/-- `NoSitePrefix p x y` states that no match of `p` starts inside the
`x`-part of `x ++ y`: scanning copies `x` verbatim. -/
def NoSitePrefix (p : Pat) (x y : Text) : Prop :=
  ∀ n, n < x.length → tryMatch p ((x ++ y).drop n) = none

/-- A decidable sufficient condition for a segment to contain no start of
a `w.Write` match regardless of what follows it: every whitespace run
inside the segment is followed, still inside the segment, by a character
other than `w`.  (In particular the segment does not end in whitespace.) -/
def SafeB : Text → Bool
  | [] => true
  | c :: rest =>
    (if wsChar c then
       match (c :: rest).dropWhile wsChar with
       | [] => false
       | d :: _ => d ≠ 'w'
     else true) && SafeB rest

/-! ### Basic facts about `pfx`, `takeWhile` and `dropWhile` -/

theorem pfx_append (n t : Text) : pfx n (n ++ t) = true := by
  induction n with
  | nil => rfl
  | cons a x ih => simp [pfx, ih]

theorem pfx_decomp {n h : Text} (hp : pfx n h = true) : h = n ++ h.drop n.length := by
  induction n generalizing h with
  | nil => simp
  | cons a x ih =>
    cases h with
    | nil => simp [pfx] at hp
    | cons b y =>
      simp only [pfx, Bool.and_eq_true, decide_eq_true_eq] at hp
      obtain ⟨rfl, h2⟩ := hp
      simpa using ih h2

theorem pfx_length_le {n h : Text} (hp : pfx n h = true) : n.length ≤ h.length := by
  induction n generalizing h with
  | nil => simp
  | cons a x ih =>
    cases h with
    | nil => simp [pfx] at hp
    | cons b y =>
      simp only [pfx, Bool.and_eq_true] at hp
      simpa using ih hp.2

theorem tw_append_all {q : Char → Bool} {x : Text} (h : ∀ c ∈ x, q c = true) (y : Text) :
    (x ++ y).takeWhile q = x ++ y.takeWhile q := by
  induction x with
  | nil => rfl
  | cons a z ih =>
    have ha : q a = true := h a (by simp)
    simp only [List.cons_append, List.takeWhile_cons, ha, if_true]
    simpa using ih (fun c hc => h c (by simp [hc]))

theorem dw_append_all {q : Char → Bool} {x : Text} (h : ∀ c ∈ x, q c = true) (y : Text) :
    (x ++ y).dropWhile q = y.dropWhile q := by
  induction x with
  | nil => rfl
  | cons a z ih =>
    have ha : q a = true := h a (by simp)
    simp only [List.cons_append, List.dropWhile_cons, ha, if_true]
    exact ih (fun c hc => h c (by simp [hc]))

theorem dw_append_stop {q : Char → Bool} {x : Text} (hx : x.dropWhile q ≠ []) (y : Text) :
    (x ++ y).dropWhile q = x.dropWhile q ++ y := by
  induction x with
  | nil => simp at hx
  | cons a z ih =>
    by_cases ha : q a = true
    · simp only [List.dropWhile_cons, ha, if_true] at hx
      simp only [List.cons_append, List.dropWhile_cons, ha, if_true]
      exact ih hx
    · have ha' : q a = false := by simpa using ha
      simp [List.dropWhile_cons, ha']

theorem tw_stop {q : Char → Bool} {c : Char} (hc : q c = false) (y : Text) :
    (c :: y).takeWhile q = [] := by
  simp [List.takeWhile_cons, hc]

theorem drop_tw_len (q : Char → Bool) (l : Text) :
    l.drop (l.takeWhile q).length = l.dropWhile q := by
  induction l with
  | nil => rfl
  | cons a x ih =>
    by_cases ha : q a = true
    · simpa [List.takeWhile_cons, List.dropWhile_cons, ha] using ih
    · have ha' : q a = false := by simpa using ha
      simp [List.takeWhile_cons, List.dropWhile_cons, ha']

theorem mem_of_mem_dropWhile {q : Char → Bool} {l : Text} {c : Char}
    (h : c ∈ l.dropWhile q) : c ∈ l :=
  (List.dropWhile_sublist q).mem h

theorem dropWhile_cons_head {q : Char → Bool} {l : Text} {d : Char} {r : Text}
    (h : l.dropWhile q = d :: r) : q d = false := by
  induction l with
  | nil => cases h
  | cons a t ih =>
    by_cases ha : q a = true
    · rw [List.dropWhile_cons_of_pos ha] at h
      exact ih h
    · rw [List.dropWhile_cons_of_neg ha] at h
      obtain ⟨rfl, -⟩ : a = d ∧ t = r := by
        constructor <;> injection h
      simpa using ha

/-! ### The matcher in `dropWhile` normal form, and step lemmas of `reSub` -/

theorem tryMatch_eq (p : Pat) (s : Text) : tryMatch p s =
    if (s.takeWhile wsChar).isEmpty then none
    else
      match tryAlts p p.alts (s.dropWhile wsChar) with
      | some (core, rest) => some (s.takeWhile wsChar ++ core, rest)
      | none => none := by
  rw [tryMatch, ← drop_tw_len wsChar s]

theorem guardNC_eq (t : Text) :
    guardOk Guard.notComment t = !(pfx "//".toList (t.dropWhile wsChar)) := by
  rw [guardOk, ← drop_tw_len wsChar t]

theorem tryMatch_nil (p : Pat) : tryMatch p [] = none := rfl

theorem tryMatch_nonws {c : Char} (p : Pat) (h : wsChar c = false) (r : Text) :
    tryMatch p (c :: r) = none := by
  simp [tryMatch, List.takeWhile_cons, h]

theorem tryAlt_length {p : Pat} {a : Alt} {rest core t : Text}
    (h : tryAlt p a rest = some (core, t)) : t.length ≤ rest.length := by
  unfold tryAlt at h
  by_cases hp : pfx a.lit rest = true
  · simp only [hp, if_true] at h
    by_cases harg : p.hasArg = true
    · simp only [harg, if_true] at h
      set r1 := rest.drop a.lit.length with hr1
      set arg := r1.takeWhile (fun c => c ≠ ')') with harg2
      rcases hd : r1.drop arg.length with _ | ⟨d, r3⟩
      · rw [hd] at h; exact absurd h (by simp)
      · rw [hd] at h
        by_cases hdp : d = ')'
        · subst hdp
          by_cases hcnd : (!arg.isEmpty && guardOk p.guard r3) = true
          · simp only [hcnd, if_true, Option.some.injEq, Prod.mk.injEq] at h
            obtain ⟨-, rfl⟩ := h
            have h1 : r3.length < r1.length := by
              have := congrArg List.length hd
              simp only [List.length_drop, List.length_cons] at this
              omega
            have h2 : r1.length ≤ rest.length := by
              simp [hr1]
            omega
          · simp only [hcnd, if_false] at h; exact absurd h (by simp)
        · exact absurd h (by simp [hdp])
    · simp only [harg, if_false] at h
      by_cases hg : guardOk p.guard (rest.drop a.lit.length) = true
      · simp only [hg, if_true, Option.some.injEq, Prod.mk.injEq] at h
        obtain ⟨-, rfl⟩ := h
        simp
      · simp only [hg, if_false] at h; exact absurd h (by simp)
  · simp only [hp, if_false] at h; exact absurd h (by simp)

theorem tryAlts_length {p : Pat} {rs : List Alt} {rest core t : Text}
    (h : tryAlts p rs rest = some (core, t)) : t.length ≤ rest.length := by
  induction rs with
  | nil => exact absurd h (by simp [tryAlts])
  | cons a rs ih =>
    rw [tryAlts] at h
    rcases ha : tryAlt p a rest with - | r
    · rw [ha] at h; exact ih h
    · rw [ha] at h
      obtain ⟨rfl⟩ : r = (core, t) := by simpa using h
      exact tryAlt_length ha

theorem tryMatch_length {p : Pat} {s repl t : Text}
    (h : tryMatch p s = some (repl, t)) : t.length < s.length := by
  rw [tryMatch_eq] at h
  by_cases hw : (s.takeWhile wsChar).isEmpty = true
  · rw [hw] at h; exact absurd h (by simp)
  · simp only [hw, Bool.false_eq_true, if_false] at h
    rcases ha : tryAlts p p.alts (s.dropWhile wsChar) with - | ⟨core, rest⟩
    · rw [ha] at h; exact absurd h (by simp)
    · rw [ha] at h
      obtain ⟨-, h6⟩ : s.takeWhile wsChar ++ core = repl ∧ rest = t := by
        simpa using h
      subst h6
      have h1 : rest.length ≤ (s.dropWhile wsChar).length := tryAlts_length ha
      have h2 : (s.dropWhile wsChar).length < s.length := by
        rw [← drop_tw_len wsChar s, List.length_drop]
        have h3 : (s.takeWhile wsChar).length ≤ s.length :=
          (List.takeWhile_sublist wsChar).length_le
        have h4 : (s.takeWhile wsChar).length ≠ 0 := by
          intro h0
          exact hw (by simpa using List.eq_nil_of_length_eq_zero h0)
        omega
      omega

theorem scanF_fuel (p : Pat) :
    ∀ f g l, l.length ≤ f → l.length ≤ g → scanF p f l = scanF p g l := by
  intro f
  induction f with
  | zero =>
    intro g l hf _
    obtain rfl : l = [] := List.eq_nil_of_length_eq_zero (by omega)
    cases g <;> rfl
  | succ f ih =>
    intro g l hf hg
    cases l with
    | nil => cases g <;> rfl
    | cons c rest =>
      cases g with
      | zero => simp at hg
      | succ g =>
        rcases hm : tryMatch p (c :: rest) with - | ⟨repl, rest2⟩
        · have hlen : rest.length ≤ f := by simpa using hf
          have hlen2 : rest.length ≤ g := by simpa using hg
          simp only [scanF, hm]
          rw [ih g rest hlen hlen2]
        · have hlt := tryMatch_length hm
          have hlen : rest2.length ≤ f := by simp at hlt hf ⊢; omega
          have hlen2 : rest2.length ≤ g := by simp at hlt hg ⊢; omega
          simp only [scanF, hm]
          rw [ih g rest2 hlen hlen2]

theorem reSub_nil (p : Pat) : reSub p [] = [] := rfl

theorem reSub_cons_none {p : Pat} {c : Char} {rest : Text}
    (h : tryMatch p (c :: rest) = none) : reSub p (c :: rest) = c :: reSub p rest := by
  rw [reSub, reSub]
  show scanF p (rest.length + 1) (c :: rest) = _
  simp only [scanF, h]

theorem reSub_cons_some {p : Pat} {c : Char} {rest repl rest2 : Text}
    (h : tryMatch p (c :: rest) = some (repl, rest2)) :
    reSub p (c :: rest) = repl ++ reSub p rest2 := by
  rw [reSub, reSub]
  show scanF p (rest.length + 1) (c :: rest) = _
  simp only [scanF, h]
  have hlt := tryMatch_length h
  simp only [List.length_cons] at hlt
  rw [scanF_fuel p rest.length rest2.length rest2 (by omega) le_rfl]

/-! ### Copy and identity lemmas for `reSub` -/

theorem reSub_copy {p : Pat} : ∀ {x y : Text}, NoSitePrefix p x y →
    reSub p (x ++ y) = x ++ reSub p y := by
  intro x
  induction x with
  | nil => intro y _; rfl
  | cons a x ih =>
    intro y h
    have h0 : tryMatch p (a :: (x ++ y)) = none := by
      have := h 0 (by simp)
      simpa using this
    rw [List.cons_append, reSub_cons_none h0]
    rw [ih (fun n hn => by simpa using h (n + 1) (by simpa using hn))]
    simp

theorem hasSiteB_false_iff {p : Pat} {l : Text} :
    hasSiteB p l = false ↔ ∀ n, tryMatch p (l.drop n) = none := by
  induction l with
  | nil => simp [hasSiteB, tryMatch_nil]
  | cons c rest ih =>
    rw [hasSiteB]
    constructor
    · intro h n
      have h1 : tryMatch p (c :: rest) = none := by
        rcases hm : tryMatch p (c :: rest) with - | r
        · rfl
        · rw [hm] at h; simp at h
      have h2 : hasSiteB p rest = false := by
        rw [h1] at h; simpa using h
      cases n with
      | zero => simpa using h1
      | succ n => simpa using ih.mp h2 n
    · intro h
      have h1 := h 0
      simp only [List.drop_zero] at h1
      rw [h1]
      simpa using ih.mpr (fun n => by simpa using h (n + 1))

theorem reSub_no_site {p : Pat} {l : Text} (h : hasSiteB p l = false) : reSub p l = l := by
  induction l with
  | nil => rfl
  | cons c rest ih =>
    rw [hasSiteB] at h
    have h1 : tryMatch p (c :: rest) = none := by
      rcases hm : tryMatch p (c :: rest) with - | r
      · rfl
      · rw [hm] at h; simp at h
    have h2 : hasSiteB p rest = false := by rw [h1] at h; simpa using h
    rw [reSub_cons_none h1, ih h2]

theorem nsp_nonws {p : Pat} {x : Text} (h : ∀ c ∈ x, wsChar c = false) (y : Text) :
    NoSitePrefix p x y := by
  intro n hn
  rw [List.drop_append_of_le_length (le_of_lt hn), List.drop_eq_getElem_cons hn,
    List.cons_append]
  exact tryMatch_nonws p (h _ (List.getElem_mem hn)) _

theorem reSub_copy_nonws {p : Pat} {x : Text} (h : ∀ c ∈ x, wsChar c = false) (y : Text) :
    reSub p (x ++ y) = x ++ reSub p y :=
  reSub_copy (nsp_nonws h y)

theorem tryMatch_head_ws {p : Pat} {c : Char} {r repl t : Text}
    (h : tryMatch p (c :: r) = some (repl, t)) : wsChar c = true := by
  by_cases hc : wsChar c = true
  · exact hc
  · rw [tryMatch_nonws p (by simpa using hc) r] at h
    exact absurd h (by simp)

theorem tryMatch_repl_head {p : Pat} {c : Char} {r repl t : Text}
    (h : tryMatch p (c :: r) = some (repl, t)) : ∃ z, repl = c :: z := by
  have hc := tryMatch_head_ws h
  rw [tryMatch_eq, List.takeWhile_cons_of_pos hc] at h
  rw [if_neg (by simp)] at h
  rcases ha : tryAlts p p.alts ((c :: r).dropWhile wsChar) with - | ⟨core, rest⟩
  · rw [ha] at h; exact absurd h (by simp)
  · rw [ha] at h
    simp only [Option.some.injEq, Prod.mk.injEq, List.cons_append] at h
    exact ⟨_, h.1.symm⟩

theorem pfx_reSub_reflect {p : Pat} {L : Text} (hL : ∀ c ∈ L, wsChar c = false) :
    ∀ {l : Text}, pfx L (reSub p l) = true → pfx L l = true := by
  induction L with
  | nil => intro l _; rfl
  | cons a L ih =>
    intro l hp
    cases l with
    | nil => rw [reSub_nil] at hp; exact absurd hp (by simp [pfx])
    | cons c r =>
      have ha : wsChar a = false := hL a (by simp)
      rcases hm : tryMatch p (c :: r) with - | ⟨repl, t⟩
      · rw [reSub_cons_none hm] at hp
        simp only [pfx, Bool.and_eq_true, decide_eq_true_eq] at hp ⊢
        exact ⟨hp.1, ih (fun d hd => hL d (by simp [hd])) hp.2⟩
      · obtain ⟨z, rfl⟩ := tryMatch_repl_head hm
        rw [reSub_cons_some hm] at hp
        simp only [List.cons_append, pfx, Bool.and_eq_true, decide_eq_true_eq] at hp
        obtain ⟨rfl, -⟩ := hp
        -- the head of a match is a whitespace character, contradicting `ha`
        have hc := tryMatch_head_ws hm
        rw [hc] at ha
        exact absurd ha (by simp)

/-! ### Computing a match at the head of a text -/

theorem guardOk_nil (g : Guard) : guardOk g [] = true := by
  cases g <;> simp [guardOk, pfx]

theorem tw_nil_of_dw_fix {q : Char → Bool} {l : Text} (h : l.dropWhile q = l) :
    l.takeWhile q = [] := by
  cases l with
  | nil => rfl
  | cons c r =>
    by_cases hc : q c = true
    · rw [List.dropWhile_cons_of_pos hc] at h
      have h1 : (r.dropWhile q).length ≤ r.length := (List.dropWhile_sublist q).length_le
      rw [h] at h1
      simp at h1
    · exact List.takeWhile_cons_of_neg hc

theorem tryMatch_head {p : Pat} {ws rest core t : Text}
    (hws : ws ≠ []) (hall : ∀ c ∈ ws, wsChar c = true)
    (hrest : rest.dropWhile wsChar = rest)
    (halts : tryAlts p p.alts rest = some (core, t)) :
    tryMatch p (ws ++ rest) = some (ws ++ core, t) := by
  rw [tryMatch_eq, tw_append_all hall, tw_nil_of_dw_fix hrest, List.append_nil]
  rw [if_neg (by simpa using hws)]
  rw [dw_append_all hall, hrest, halts]

theorem tryAlt_arg_eval {p : Pat} {L pre post arg t : Text}
    (hp : p.hasArg = true)
    (hargc : ∀ c ∈ arg, c ≠ ')') (hne : arg ≠ []) (hg : guardOk p.guard t = true) :
    tryAlt p ⟨L, pre, post⟩ (L ++ arg ++ ')' :: t) = some (pre ++ arg ++ post, t) := by
  have h1 : pfx L (L ++ arg ++ ')' :: t) = true := by
    rw [List.append_assoc]; exact pfx_append L _
  have h2 : (L ++ arg ++ ')' :: t).drop L.length = arg ++ ')' :: t := by
    rw [List.append_assoc]; exact List.drop_left L _
  have h3 : (arg ++ ')' :: t).takeWhile (fun c => c ≠ ')') = arg := by
    rw [tw_append_all (fun c hc => by simpa using hargc c hc)]
    rw [tw_stop (by simp) t, List.append_nil]
  rw [tryAlt]
  simp only [h1, if_true, hp, h2, h3]
  rw [List.drop_left arg _]
  simp only [hne, hg]
  simp [List.isEmpty_eq_true, hne, hg]

theorem reSub_arg_whole (L pre post : Text) (g : Guard) {ws arg : Text}
    (hL : L.dropWhile wsChar = L) (hLne : L ≠ [])
    (hws : ws ≠ []) (hwall : ∀ c ∈ ws, wsChar c = true)
    (harg : arg ≠ []) (hargc : ∀ c ∈ arg, c ≠ ')') :
    reSub ⟨[⟨L, pre, post⟩], true, g⟩ (ws ++ (L ++ arg ++ [')']))
      = ws ++ pre ++ arg ++ post := by
  have hrest : (L ++ arg ++ ')' :: ([] : Text)).dropWhile wsChar
      = L ++ arg ++ ')' :: ([] : Text) := by
    cases L with
    | nil => exact absurd rfl hLne
    | cons d L2 =>
      have hd : wsChar d = false := by
        by_cases h0 : wsChar d = true
        · rw [List.dropWhile_cons_of_pos h0] at hL
          have h1 : (L2.dropWhile wsChar).length ≤ L2.length :=
            (List.dropWhile_sublist wsChar).length_le
          rw [hL] at h1
          simp at h1
        · simpa using h0
      simp only [List.cons_append]
      exact List.dropWhile_cons_of_neg (by simp [hd])
  have halt : tryAlt ⟨[⟨L, pre, post⟩], true, g⟩ ⟨L, pre, post⟩
      (L ++ arg ++ ')' :: ([] : Text)) = some (pre ++ arg ++ post, []) :=
    tryAlt_arg_eval rfl hargc harg (guardOk_nil g)
  have hm : tryMatch ⟨[⟨L, pre, post⟩], true, g⟩
      (ws ++ (L ++ arg ++ ')' :: ([] : Text)))
      = some (ws ++ (pre ++ arg ++ post), []) :=
    tryMatch_head hws hwall hrest (by rw [tryAlts, halt])
  cases ws with
  | nil => exact absurd rfl hws
  | cons w0 ws2 =>
    have hm2 : tryMatch ⟨[⟨L, pre, post⟩], true, g⟩
        (w0 :: (ws2 ++ (L ++ arg ++ ')' :: ([] : Text))))
        = some (w0 :: ws2 ++ (pre ++ arg ++ post), []) := by
      simpa using hm
    have := reSub_cons_some hm2
    simp only [List.cons_append] at this ⊢
    rw [show (')' :: ([] : Text)) = ([')'] : Text) from rfl] at this
    rw [this, reSub_nil, List.append_nil]
    simp

/-! ### Behaviour of the driver -/

theorem fix_file_read_fail {f : FileSt} (h : f.readOk = false) :
    fix_file f = ⟨none, false, [],
      ["Error processing " ++ f.path ++ ": " ++ f.readErr]⟩ := by
  rw [fix_file, if_neg (by simp [h])]

theorem fix_file_unchanged {f : FileSt} (h1 : f.readOk = true)
    (h2 : applyAllFixes f.content = f.content) :
    fix_file f = ⟨none, false, [], []⟩ := by
  rw [fix_file, if_pos (by simp [h1])]
  simp [h2]

theorem fix_file_fixed {f : FileSt} (h1 : f.readOk = true)
    (h2 : applyAllFixes f.content ≠ f.content) (h3 : f.writeOk = true) :
    fix_file f = ⟨some (applyAllFixes f.content), true, ["Fixed: " ++ f.path], []⟩ := by
  rw [fix_file, if_pos (by simp [h1]), if_neg h2, if_pos (by simp [h3])]

theorem fix_file_write_fail {f : FileSt} (h1 : f.readOk = true)
    (h2 : applyAllFixes f.content ≠ f.content) (h3 : f.writeOk = false) :
    fix_file f = ⟨none, false, [],
      ["Error processing " ++ f.path ++ ": " ++ f.writeErr]⟩ := by
  rw [fix_file, if_pos (by simp [h1]), if_neg h2, if_neg (by simp [h3])]

theorem runFiles_stdout (files : List FileSt) :
    (runFiles files).stdout = files.flatMap (fun f => (fix_file f).out) := by
  induction files with
  | nil => rfl
  | cons f fs ih => simp [runFiles, ih]

theorem runFiles_stderr (files : List FileSt) :
    (runFiles files).stderr = files.flatMap (fun f => (fix_file f).err) := by
  induction files with
  | nil => rfl
  | cons f fs ih => simp [runFiles, ih]

theorem runFiles_writes (files : List FileSt) :
    (runFiles files).writes = files.flatMap (fun f =>
      match (fix_file f).written with
      | some t => [(f.path, t)]
      | none => []) := by
  induction files with
  | nil => rfl
  | cons f fs ih => simp [runFiles, ih]

theorem runFiles_count (files : List FileSt) :
    (runFiles files).fixedCount = files.countP (fun f => (fix_file f).fixed) := by
  induction files with
  | nil => rfl
  | cons f fs ih =>
    simp only [runFiles, ih, List.countP_cons]
    by_cases h : (fix_file f).fixed = true
    · simp [h]; omega
    · simp [h]

theorem fix_file_err_length (f : FileSt) :
    (fix_file f).err.length = if (fix_file f).err.isEmpty then 0 else 1 := by
  by_cases h1 : f.readOk = true
  · by_cases h2 : applyAllFixes f.content = f.content
    · rw [fix_file_unchanged h1 h2]; rfl
    · by_cases h3 : f.writeOk = true
      · rw [fix_file_fixed h1 h2 h3]; rfl
      · rw [fix_file_write_fail h1 h2 (by simpa using h3)]; rfl
  · rw [fix_file_read_fail (by simpa using h1)]; rfl

theorem stderr_length_eq_err_count (files : List FileSt) :
    (runFiles files).stderr.length
      = files.countP (fun f => !(fix_file f).err.isEmpty) := by
  induction files with
  | nil => rfl
  | cons f fs ih =>
    simp only [runFiles, List.length_append, ih, List.countP_cons]
    have h := fix_file_err_length f
    by_cases h0 : (fix_file f).err.isEmpty = true
    · simp only [h0, if_true] at h
      simp [h, h0]
    · have h0' : (fix_file f).err.isEmpty = false := by simpa using h0
      simp only [h0', Bool.false_eq_true, if_false] at h
      simp [h, h0']
      omega

theorem foldl_mock_no_site : ∀ (ms : List Text) (l : Text),
    (∀ m ∈ ms, hasSiteB (mockPat m) l = false) →
    ms.foldl (fun c name => reSub (mockPat name) c) l = l := by
  intro ms
  induction ms with
  | nil => intro l _; rfl
  | cons m ms ih =>
    intro l h
    rw [List.foldl_cons, reSub_no_site (h m (by simp))]
    exact ih l (fun m2 hm2 => h m2 (by simp [hm2]))

theorem out_filterMap_of_ok (files : List FileSt)
    (h : ∀ f ∈ files, f.readOk = true ∧ f.writeOk = true) :
    files.flatMap (fun f => (fix_file f).out)
      = files.filterMap (fun f =>
          if applyAllFixes f.content = f.content then none
          else some ("Fixed: " ++ f.path)) := by
  induction files with
  | nil => rfl
  | cons f fs ih =>
    obtain ⟨h1, h3⟩ := h f (by simp)
    have ihr := ih (fun g hg => h g (by simp [hg]))
    by_cases h2 : applyAllFixes f.content = f.content
    · rw [List.flatMap_cons, List.filterMap_cons, fix_file_unchanged h1 h2]
      simpa [h2] using ihr
    · rw [List.flatMap_cons, List.filterMap_cons, fix_file_fixed h1 h2 h3]
      simpa [h2] using ihr

theorem count_changed_of_ok (files : List FileSt)
    (h : ∀ f ∈ files, f.readOk = true ∧ f.writeOk = true) :
    files.countP (fun f => (fix_file f).fixed)
      = files.countP (fun f => decide (applyAllFixes f.content ≠ f.content)) := by
  induction files with
  | nil => rw [List.countP_nil, List.countP_nil]
  | cons f fs ih =>
    obtain ⟨h1, h3⟩ := h f (by simp)
    have ihr := ih (fun g hg => h g (by simp [hg]))
    rw [List.countP_cons, List.countP_cons, ihr]
    by_cases h2 : applyAllFixes f.content = f.content
    · have hd : decide (applyAllFixes f.content ≠ f.content) = false :=
        decide_eq_false (by simp [h2])
      rw [fix_file_unchanged h1 h2]
      simp only [hd]
    · have hd : decide (applyAllFixes f.content ≠ f.content) = true :=
        decide_eq_true h2
      rw [fix_file_fixed h1 h2 h3]
      simp only [hd]

theorem stderr_nil_of_ok (files : List FileSt)
    (h : ∀ f ∈ files, f.readOk = true ∧ f.writeOk = true) :
    files.flatMap (fun f => (fix_file f).err) = [] := by
  induction files with
  | nil => rfl
  | cons f fs ih =>
    obtain ⟨h1, h3⟩ := h f (by simp)
    have ihr := ih (fun g hg => h g (by simp [hg]))
    by_cases h2 : applyAllFixes f.content = f.content
    · rw [List.flatMap_cons, fix_file_unchanged h1 h2, ihr]; rfl
    · rw [List.flatMap_cons, fix_file_fixed h1 h2 h3, ihr]; rfl

/-! ### Claims -/

/-- C1.  The spec claims the full ordered rule list is idempotent and that
a second run of the tool reports zero modified files.  The intent is clear
(the idempotency contract is stated as the primary external contract, and
several rules carry explicit already-fixed exclusions), but the code slips
for the bare-call rules: on a file containing `\tfmt.Sscanf(x)`, the first
run produces `\t_, _ = fmt.Sscanf(x)`, and a second application matches
the space before `fmt.Sscanf(` again, producing `\t_, _ = _, _ = fmt.Sscanf(x)`
(invalid Go); consequently a second tree run reports the file as modified
again instead of reporting zero modified files. -/
theorem claim_C1_pipeline_not_idempotent :
    applyAllFixes "\tfmt.Sscanf(x)\n".toList = "\t_, _ = fmt.Sscanf(x)\n".toList
    ∧ applyAllFixes (applyAllFixes "\tfmt.Sscanf(x)\n".toList)
        = "\t_, _ = _, _ = fmt.Sscanf(x)\n".toList
    ∧ applyAllFixes (applyAllFixes "\tfmt.Sscanf(x)\n".toList)
        ≠ applyAllFixes "\tfmt.Sscanf(x)\n".toList
    ∧ (fix_file ⟨"b.go", applyAllFixes "\tfmt.Sscanf(x)\n".toList,
        true, "", true, ""⟩).fixed = true :=
  ⟨by decide, by decide, by decide, by decide⟩

/-- C3.  The spec claims a deferred statement is left untouched by the
immediate-close rules.  The code contradicts its own docstring ("Fix
ignored close calls (not deferred)"): the pattern `(\s+)resp\.Body\.Close\(\)`
matches the space between `defer` and the call, so
`\tdefer resp.Body.Close()` is rewritten to the invalid
`\tdefer _ = resp\.Body\.Close\(\) // Best-effort close`
(with literal backslashes from the template interpolation). -/
theorem claim_C3_ignored_close_hits_defer :
    fix_ignored_close "resp\\.Body\\.Close\\(\\)".toList
        "\tdefer resp.Body.Close()\n".toList
      = "\tdefer _ = resp\\.Body\\.Close\\(\\) // Best-effort close\n".toList
    ∧ fix_ignored_close "resp\\.Body\\.Close\\(\\)".toList
        "\tdefer resp.Body.Close()\n".toList
      ≠ "\tdefer resp.Body.Close()\n".toList
    ∧ applyAllFixes "\tdefer resp.Body.Close()\n".toList
      ≠ "\tdefer resp.Body.Close()\n".toList :=
  ⟨by decide, by decide, by decide⟩

/-- C2, counterexample.  The claim says every rule preserves the callee
name and the full argument text verbatim, in particular for arguments
containing parentheses such as `w.Write([]byte(s))`.  In fact `[^)]+`
stops at the first `)`, so the wrapper closes the call after `[]byte(s`
and the trailing `)` is stranded after the comment; and the close rules
re-emit the regex-escaped pattern (with backslashes) instead of the
original call text. -/
theorem claim_C2_counterexample :
    fix_write_calls "\tw.Write([]byte(s))\n".toList
      = "\t_, _ = w.Write([]byte(s) // Error logged by HTTP framework)\n".toList
    ∧ fix_write_calls "\tw.Write([]byte(s))\n".toList
      ≠ "\t_, _ = w.Write([]byte(s)) // Error logged by HTTP framework\n".toList
    ∧ fix_ignored_close "db\\.Close\\(\\)".toList "\tdb.Close()\n".toList
      = "\t_ = db\\.Close\\(\\) // Best-effort close\n".toList
    ∧ fix_ignored_close "db\\.Close\\(\\)".toList "\tdb.Close()\n".toList
      ≠ "\t_ = db.Close() // Best-effort close\n".toList :=
  ⟨by decide, by decide, by decide, by decide⟩

/-- C2, amended.  For the three argument-capturing rules
(`fix_write_calls`, `fix_rand_read`, `fix_json_encode`), a matched
statement whose argument text contains no `)` is rewritten with the callee
name and the argument text preserved verbatim, adding only the discard or
check wrapper and the trailing comment. -/
theorem claim_C2_amended (ws arg : Text)
    (hws : ws ≠ []) (hwall : ∀ c ∈ ws, wsChar c = true)
    (harg : arg ≠ []) (hargc : ∀ c ∈ arg, c ≠ ')') :
    fix_write_calls (ws ++ ("w.Write(".toList ++ arg ++ [')']))
      = ws ++ "_, _ = w.Write(".toList ++ arg
          ++ ") // Error logged by HTTP framework".toList
    ∧ fix_rand_read (ws ++ ("rand.Read(".toList ++ arg ++ [')']))
      = ws ++ "_, _ = rand.Read(".toList ++ arg
          ++ ") // crypto/rand.Read errors are rare".toList
    ∧ fix_json_encode (ws ++ ("json.NewEncoder(w).Encode(".toList ++ arg ++ [')']))
      = ws ++ "if err := json.NewEncoder(w).Encode(".toList ++ arg
          ++ "); err != nil \x7b\n\t\t// Error encoding response - already logged by HTTP layer\n\t\x7d".toList := by
  refine ⟨?_, ?_, ?_⟩
  · have h := reSub_arg_whole "w.Write(".toList
      "_, _ = w.Write(".toList
      ") // Error logged by HTTP framework".toList
      Guard.notComment (by decide) (by decide) hws hwall harg hargc
    simpa [List.append_assoc] using h
  · have h := reSub_arg_whole "rand.Read(".toList
      "_, _ = rand.Read(".toList
      ") // crypto/rand.Read errors are rare".toList
      Guard.gnone (by decide) (by decide) hws hwall harg hargc
    simpa [List.append_assoc] using h
  · have h := reSub_arg_whole "json.NewEncoder(w).Encode(".toList
      "if err := json.NewEncoder(w).Encode(".toList
      "); err != nil \x7b\n\t\t// Error encoding response - already logged by HTTP layer\n\t\x7d".toList
      Guard.gnone (by decide) (by decide) hws hwall harg hargc
    simpa [List.append_assoc] using h

/-- Witness for C2 (amended): the three rules at a concrete whitespace run
and a concrete parenthesis-free argument. -/
theorem claim_C2_amended_witness :
    fix_write_calls ("\t".toList ++ ("w.Write(".toList ++ "data".toList ++ [')']))
      = "\t".toList ++ "_, _ = w.Write(".toList ++ "data".toList
          ++ ") // Error logged by HTTP framework".toList
    ∧ fix_rand_read ("\t".toList ++ ("rand.Read(".toList ++ "data".toList ++ [')']))
      = "\t".toList ++ "_, _ = rand.Read(".toList ++ "data".toList
          ++ ") // crypto/rand.Read errors are rare".toList
    ∧ fix_json_encode ("\t".toList
          ++ ("json.NewEncoder(w).Encode(".toList ++ "data".toList ++ [')']))
      = "\t".toList ++ "if err := json.NewEncoder(w).Encode(".toList ++ "data".toList
          ++ "); err != nil \x7b\n\t\t// Error encoding response - already logged by HTTP layer\n\t\x7d".toList :=
  claim_C2_amended "\t".toList "data".toList (by decide) (by decide) (by decide)
    (by decide)

/-- C4.  A text with zero matches for a rule's shape round-trips through
the rule byte-for-byte.  Stated generically for every pattern of the
shared shape (every rule in the file is an application, or a sequential
composition, of `reSub` at such patterns), and additionally for the two
cited rules: `fix_defer_close` at an arbitrary pattern argument, and the
loop of `fix_mock_service_calls`.  (The embedded rules are total
functions, matching the claim that a rule never raises.) -/
theorem claim_C4_non_interference :
    (∀ (p : Pat) (l : Text), hasSiteB p l = false → reSub p l = l)
    ∧ (∀ pattern l, hasSiteB (deferClosePat pattern) l = false →
        fix_defer_close pattern l = l)
    ∧ (∀ l, (∀ name ∈ mockPatterns, hasSiteB (mockPat name) l = false) →
        fix_mock_service_calls l = l) := by
  refine ⟨fun p l h => reSub_no_site h, fun pattern l h => reSub_no_site h, ?_⟩
  intro l h
  exact foldl_mock_no_site mockPatterns l h

/-- Witness for C4 at a concrete match-free text. -/
theorem claim_C4_witness :
    reSub writePat "package main\n".toList = "package main\n".toList
    ∧ fix_defer_close "rows\\.Close\\(\\)".toList "package main\n".toList
        = "package main\n".toList
    ∧ fix_mock_service_calls "package main\n".toList = "package main\n".toList :=
  ⟨claim_C4_non_interference.1 writePat "package main\n".toList (by decide),
   claim_C4_non_interference.2.1 "rows\\.Close\\(\\)".toList "package main\n".toList
     (by decide),
   claim_C4_non_interference.2.2 "package main\n".toList (by decide)⟩

/-- C5.  Failure isolation: with file A unreadable and files B, C fixable,
the tree run reports exactly one error record (naming A and the cause) on
the error stream, does not report A as fixed, still reports B and C as
fixed, writes exactly B's and C's new texts, and completes the whole
traversal. -/
theorem claim_C5_failure_isolation (A B C : FileSt)
    (hA : A.readOk = false)
    (hB1 : B.readOk = true) (hB2 : applyAllFixes B.content ≠ B.content)
    (hB3 : B.writeOk = true)
    (hC1 : C.readOk = true) (hC2 : applyAllFixes C.content ≠ C.content)
    (hC3 : C.writeOk = true) :
    (mainRun [A, B, C]).stderr
      = ["Error processing " ++ A.path ++ ": " ++ A.readErr]
    ∧ (mainRun [A, B, C]).stdout
      = ["Found 3 Go files", "Applying errcheck fixes...",
         "Fixed: " ++ B.path, "Fixed: " ++ C.path, "\nFixed 2 files", lintAdvice]
    ∧ (mainRun [A, B, C]).fixedCount = 2
    ∧ (mainRun [A, B, C]).writes
      = [(B.path, applyAllFixes B.content), (C.path, applyAllFixes C.content)] := by
  have hA' := fix_file_read_fail hA
  have hB' := fix_file_fixed hB1 hB2 hB3
  have hC' := fix_file_fixed hC1 hC2 hC3
  refine ⟨?_, ?_, ?_, ?_⟩ <;>
    simp [mainRun, runFiles, hA', hB', hC',
      show toString (3 : Nat) = "3" from rfl, show toString (2 : Nat) = "2" from rfl]

/-- Witness for C5: a concrete unreadable file and two concrete fixable
files. -/
theorem claim_C5_witness :
    (mainRun [⟨"a.go", [], false, "permission denied", true, ""⟩,
              ⟨"b.go", "\tfmt.Sscanf(x)\n".toList, true, "", true, ""⟩,
              ⟨"c.go", "\tio.Copy(d, s)\n".toList, true, "", true, ""⟩]).stderr
      = ["Error processing " ++ "a.go" ++ ": " ++ "permission denied"]
    ∧ (mainRun [⟨"a.go", [], false, "permission denied", true, ""⟩,
              ⟨"b.go", "\tfmt.Sscanf(x)\n".toList, true, "", true, ""⟩,
              ⟨"c.go", "\tio.Copy(d, s)\n".toList, true, "", true, ""⟩]).stdout
      = ["Found 3 Go files", "Applying errcheck fixes...",
         "Fixed: " ++ "b.go", "Fixed: " ++ "c.go", "\nFixed 2 files", lintAdvice]
    ∧ (mainRun [⟨"a.go", [], false, "permission denied", true, ""⟩,
              ⟨"b.go", "\tfmt.Sscanf(x)\n".toList, true, "", true, ""⟩,
              ⟨"c.go", "\tio.Copy(d, s)\n".toList, true, "", true, ""⟩]).fixedCount = 2
    ∧ (mainRun [⟨"a.go", [], false, "permission denied", true, ""⟩,
              ⟨"b.go", "\tfmt.Sscanf(x)\n".toList, true, "", true, ""⟩,
              ⟨"c.go", "\tio.Copy(d, s)\n".toList, true, "", true, ""⟩]).writes
      = [("b.go", applyAllFixes "\tfmt.Sscanf(x)\n".toList),
         ("c.go", applyAllFixes "\tio.Copy(d, s)\n".toList)] :=
  claim_C5_failure_isolation _ _ _ rfl rfl (by decide) rfl rfl (by decide) rfl

/-- C6.  Report order and aggregate count: in a run with no I/O failures
the reporting sink receives, in order, the total candidate-file count, the
header line, one `Fixed: path` line per modified file (in traversal
order), a final count equal to the exact number of files whose
post-rewrite text differs from their pre-rewrite text, and the fixed
closing recommendation to re-run the external linter; the error stream
stays empty. -/
theorem claim_C6_report_order (files : List FileSt)
    (h : ∀ f ∈ files, f.readOk = true ∧ f.writeOk = true) :
    (mainRun files).stdout =
      ["Found " ++ toString files.length ++ " Go files",
       "Applying errcheck fixes..."]
      ++ files.filterMap (fun f =>
           if applyAllFixes f.content = f.content then none
           else some ("Fixed: " ++ f.path))
      ++ ["\nFixed " ++ toString (files.countP
             (fun f => decide (applyAllFixes f.content ≠ f.content))) ++ " files",
          lintAdvice]
    ∧ (mainRun files).stderr = [] := by
  constructor
  · show (["Found " ++ toString files.length ++ " Go files",
      "Applying errcheck fixes..."]
      ++ (runFiles files).stdout
      ++ ["\nFixed " ++ toString (runFiles files).fixedCount ++ " files",
          lintAdvice]) = _
    rw [runFiles_stdout, runFiles_count, out_filterMap_of_ok files h,
      count_changed_of_ok files h]
  · show (runFiles files).stderr = []
    rw [runFiles_stderr, stderr_nil_of_ok files h]

/-- Witness for C6 at a concrete two-file tree (one modified, one not). -/
theorem claim_C6_witness :
    (mainRun ([⟨"b.go", "\tfmt.Sscanf(x)\n".toList, true, "", true, ""⟩,
               ⟨"u.go", "package u\n".toList, true, "", true, ""⟩] : List FileSt)).stdout =
      ["Found " ++ toString (([⟨"b.go", "\tfmt.Sscanf(x)\n".toList, true, "", true, ""⟩,
               ⟨"u.go", "package u\n".toList, true, "", true, ""⟩] : List FileSt)).length
         ++ " Go files",
       "Applying errcheck fixes..."]
      ++ (([⟨"b.go", "\tfmt.Sscanf(x)\n".toList, true, "", true, ""⟩,
            ⟨"u.go", "package u\n".toList, true, "", true, ""⟩] : List FileSt)).filterMap
          (fun f => if applyAllFixes f.content = f.content then none
            else some ("Fixed: " ++ f.path))
      ++ ["\nFixed " ++ toString ((([⟨"b.go", "\tfmt.Sscanf(x)\n".toList, true, "", true, ""⟩,
            ⟨"u.go", "package u\n".toList, true, "", true, ""⟩] : List FileSt)).countP
             (fun f => decide (applyAllFixes f.content ≠ f.content))) ++ " files",
          lintAdvice]
    ∧ (mainRun ([⟨"b.go", "\tfmt.Sscanf(x)\n".toList, true, "", true, ""⟩,
               ⟨"u.go", "package u\n".toList, true, "", true, ""⟩] : List FileSt)).stderr
        = [] :=
  claim_C6_report_order _ (by
    intro f hf
    simp only [List.mem_cons, List.not_mem_nil, or_false] at hf
    rcases hf with rfl | rfl <;> exact ⟨rfl, rfl⟩)

/-- C7.  The traversal invokes `fix_file` on every candidate file, never
stops early, and determines the two aggregate counts: the number of
modified files (the accumulated `fixed_count`) and the number of per-file
errors (each failing file contributes exactly one error record). -/
theorem claim_C7_traversal_aggregates (files : List FileSt) :
    (runFiles files).fixedCount = files.countP (fun f => (fix_file f).fixed)
    ∧ (runFiles files).stderr.length
        = files.countP (fun f => !(fix_file f).err.isEmpty)
    ∧ (runFiles files).stdout = files.flatMap (fun f => (fix_file f).out)
    ∧ (runFiles files).stderr = files.flatMap (fun f => (fix_file f).err)
    ∧ (runFiles files).writes = files.flatMap (fun f =>
        match (fix_file f).written with
        | some t => [(f.path, t)]
        | none => []) :=
  ⟨runFiles_count files, stderr_length_eq_err_count files,
   runFiles_stdout files, runFiles_stderr files, runFiles_writes files⟩

/-- C8.  The spec's worked example claims `  defer rows.Close()` is
rewritten to a wrapped form that explicitly discards the close error.  The
second half of the claim holds (a second run changes nothing and does not
report the file as fixed), but the produced wrapper is
`  defer func() { _ = rows\.Close\(\) }() // Best-effort close` with
literal backslashes (the regex-escaped pattern is interpolated into the
replacement template), which is not a call to `rows.Close()` and not valid
Go — the code slips where the spec states the clear intent. -/
theorem claim_C8_defer_rows_close :
    applyAllFixes "  defer rows.Close()\n".toList
      = "  defer func() \x7b _ = rows\\.Close\\(\\) \x7d() // Best-effort close\n".toList
    ∧ applyAllFixes "  defer rows.Close()\n".toList
      ≠ "  defer func() \x7b _ = rows.Close() \x7d() // Best-effort close\n".toList
    ∧ applyAllFixes (applyAllFixes "  defer rows.Close()\n".toList)
      = applyAllFixes "  defer rows.Close()\n".toList
    ∧ (fix_file ⟨"r.go", applyAllFixes "  defer rows.Close()\n".toList,
        true, "", true, ""⟩).fixed = false :=
  ⟨by decide, by decide, by decide, by decide⟩

/-- C9.  Frame condition: for a readable file, the engine writes back at
most once, only when the fully-rewritten text differs from the original,
and what it writes is the complete rewritten text; an unchanged file is
never written. -/
theorem claim_C9_frame_condition (f : FileSt) (h : f.readOk = true) :
    (fix_file f).written =
      (if applyAllFixes f.content = f.content then none
       else if f.writeOk = true then some (applyAllFixes f.content) else none) := by
  by_cases h2 : applyAllFixes f.content = f.content
  · rw [fix_file_unchanged h h2, if_pos h2]
  · rw [if_neg h2]
    by_cases h3 : f.writeOk = true
    · rw [fix_file_fixed h h2 h3, if_pos h3]
    · rw [fix_file_write_fail h h2 (by simpa using h3), if_neg h3]

/-! ### Idempotency of `fix_write_calls` (claim C10)

The negative lookahead `(?!\s*//)` guards the rule: every replacement ends
in a `//` comment right after the re-emitted call, so a rewritten site can
never be rewritten again, and a site the rule skipped stays skipped.  The
lemmas below make this precise: `reSub writePat l` contains no match site
at all, hence a second application is the identity. -/

theorem pfx_cons_ne {a b : Char} {x y : Text} (h : ¬a = b) :
    pfx (a :: x) (b :: y) = false := by
  simp [pfx, h]

theorem tw_append_stop {q : Char → Bool} {x : Text} (hx : x.dropWhile q ≠ []) (y : Text) :
    (x ++ y).takeWhile q = x.takeWhile q := by
  induction x with
  | nil => simp at hx
  | cons a z ih =>
    by_cases ha : q a = true
    · rw [List.dropWhile_cons_of_pos ha] at hx
      rw [List.cons_append, List.takeWhile_cons_of_pos ha,
        List.takeWhile_cons_of_pos ha, ih hx]
    · have ha' : ¬q a = true := ha
      rw [List.cons_append, List.takeWhile_cons_of_neg ha',
        List.takeWhile_cons_of_neg ha']

theorem dw_idem (q : Char → Bool) (l : Text) :
    (l.dropWhile q).dropWhile q = l.dropWhile q := by
  induction l with
  | nil => rfl
  | cons a z ih =>
    by_cases ha : q a = true
    · rw [List.dropWhile_cons_of_pos ha]; exact ih
    · rw [List.dropWhile_cons_of_neg ha, List.dropWhile_cons_of_neg ha]

theorem tryAlts_singleton (p : Pat) (a : Alt) (rest : Text) :
    tryAlts p [a] rest = tryAlt p a rest := by
  rcases h : tryAlt p a rest with - | r <;> simp [tryAlts, h]

/-- The single alternative of `writePat`. -/
theorem writePat_alts : writePat.alts =
    [⟨"w.Write(".toList, "_, _ = w.Write(".toList,
      ") // Error logged by HTTP framework".toList⟩] := rfl

theorem tm_w_eq (s : Text) : tryMatch writePat s =
    (if (s.takeWhile wsChar).isEmpty then none
     else
       match tryAlt writePat ⟨"w.Write(".toList, "_, _ = w.Write(".toList,
           ") // Error logged by HTTP framework".toList⟩ (s.dropWhile wsChar) with
       | some (core, rest) => some (s.takeWhile wsChar ++ core, rest)
       | none => none) := by
  rw [tryMatch_eq, writePat_alts, tryAlts_singleton]

theorem guardNC_false {t : Text} :
    guardOk Guard.notComment t = false ↔
      pfx "//".toList (t.dropWhile wsChar) = true := by
  rw [guardNC_eq]
  cases h : pfx "//".toList (t.dropWhile wsChar) <;> simp

/-- A safe segment contains no start of a `w.Write` match, whatever
follows it. -/
theorem nsp_safe {x : Text} (hx : SafeB x = true) (y : Text) :
    NoSitePrefix writePat x y := by
  induction x with
  | nil => intro n hn; simp at hn
  | cons c rest ih =>
    rw [SafeB, Bool.and_eq_true] at hx
    obtain ⟨hc, hrest⟩ := hx
    intro n hn
    cases n with
    | succ n =>
      have := ih hrest n (by simpa using hn)
      simpa using this
    | zero =>
      simp only [List.drop_zero]
      by_cases hws : wsChar c = true
      · rw [if_pos hws] at hc
        rcases hd : (c :: rest).dropWhile wsChar with - | ⟨d, s2⟩
        · rw [hd] at hc; exact absurd hc (by simp)
        · rw [hd] at hc
          have hdw : ¬d = 'w' := by
            intro h0
            rw [h0] at hc
            simp at hc
          have hne : (c :: rest).dropWhile wsChar ≠ [] := by rw [hd]; simp
          rw [tm_w_eq, tw_append_stop hne y]
          rw [if_neg (by simp [List.takeWhile_cons_of_pos hws])]
          rw [dw_append_stop hne y, hd]
          rw [tryAlt, show ("w.Write(".toList) = 'w' :: ".Write(".toList from rfl]
          rw [List.cons_append, pfx_cons_ne (fun h0 => hdw h0.symm)]
          simp
      · rw [List.cons_append]
        exact tryMatch_nonws writePat (by simpa using hws) _

theorem nsp_concat {p : Pat} {x m y : Text}
    (h1 : NoSitePrefix p x (m ++ y)) (h2 : NoSitePrefix p m y) :
    NoSitePrefix p (x ++ m) y := by
  intro n hn
  rw [List.append_assoc]
  by_cases hx : n < x.length
  · exact h1 n hx
  · have hk : n - x.length < m.length := by
      rw [List.length_append] at hn; omega
    have hdrop : (x ++ (m ++ y)).drop n = (m ++ y).drop (n - x.length) := by
      have h0 : n = x.length + (n - x.length) := by omega
      conv_lhs => rw [h0]
      rw [← List.drop_drop, List.drop_left]
    rw [hdrop]
    exact h2 _ hk

theorem writePat_hasArg : writePat.hasArg = true := rfl

theorem nsp_wsrun_mismatch {w : Text} (hall : ∀ c ∈ w, wsChar c = true)
    {e : Char} (he : wsChar e = false) (hne : ¬e = 'w') (z : Text) :
    NoSitePrefix writePat w (e :: z) := by
  intro n hn
  rw [List.drop_append_of_le_length (le_of_lt hn)]
  have hall2 : ∀ c ∈ w.drop n, wsChar c = true :=
    fun c hc => hall c ((List.drop_sublist n w).mem hc)
  have hlen : (w.drop n).length ≠ 0 := by
    rw [List.length_drop]; omega
  rw [tm_w_eq, tw_append_all hall2, tw_stop he z, List.append_nil]
  rw [if_neg (by
    rw [List.isEmpty_iff]
    intro h0
    exact hlen (by rw [h0]; rfl))]
  rw [dw_append_all hall2, List.dropWhile_cons_of_neg (by simp [he])]
  rw [tryAlt, show ("w.Write(".toList) = 'w' :: ".Write(".toList from rfl]
  rw [pfx_cons_ne (fun h0 => hne h0.symm)]
  simp

theorem pfx_split_noc {L : Text} (hL : ')' ∉ L) :
    ∀ {d t : Text}, ')' ∉ d → pfx L (d ++ ')' :: t) = true → ∃ b, d = L ++ b := by
  induction L with
  | nil => intro d t _ _; exact ⟨d, rfl⟩
  | cons c L ih =>
    intro d t hd hp
    cases d with
    | nil =>
      rw [List.nil_append] at hp
      simp only [pfx, Bool.and_eq_true, decide_eq_true_eq] at hp
      obtain ⟨h1, -⟩ := hp
      subst h1
      exact absurd (List.mem_cons_self _ _) hL
    | cons e d2 =>
      rw [List.cons_append] at hp
      simp only [pfx, Bool.and_eq_true, decide_eq_true_eq] at hp
      obtain ⟨rfl, h2⟩ := hp
      obtain ⟨b, hb⟩ := ih (fun h0 => hL (by simp [h0]))
        (fun h0 => hd (by simp [h0])) h2
      exact ⟨b, by rw [List.cons_append, hb]⟩

/-- `tryAlt` for the `w.Write` rule, with projections and local
definitions unfolded. -/
theorem tryAlt_w_unfold (rest : Text) :
    tryAlt writePat ⟨"w.Write(".toList, "_, _ = w.Write(".toList,
        ") // Error logged by HTTP framework".toList⟩ rest =
      (if pfx "w.Write(".toList rest then
        match (rest.drop ("w.Write(".toList : Text).length).drop
            ((rest.drop ("w.Write(".toList : Text).length).takeWhile
              (fun c => c ≠ ')')).length with
        | ')' :: r3 =>
          if !((rest.drop ("w.Write(".toList : Text).length).takeWhile
              (fun c => c ≠ ')')).isEmpty && guardOk Guard.notComment r3 then
            some ("_, _ = w.Write(".toList
              ++ (rest.drop ("w.Write(".toList : Text).length).takeWhile
                  (fun c => c ≠ ')')
              ++ ") // Error logged by HTTP framework".toList, r3)
          else none
        | _ => none
       else none) := rfl

/-- The rewrite rule of `fix_write_calls` rejects a call site whose
lookahead guard fails, whatever stands in the argument position. -/
theorem tryAlt_w_guardfalse {b t : Text} (hb : ')' ∉ b)
    (hg : guardOk Guard.notComment t = false) :
    tryAlt writePat ⟨"w.Write(".toList, "_, _ = w.Write(".toList,
        ") // Error logged by HTTP framework".toList⟩
      ("w.Write(".toList ++ (b ++ ')' :: t)) = none := by
  have h3 : (b ++ ')' :: t).takeWhile (fun c => c ≠ ')') = b := by
    have hmem : ∀ c ∈ b, (fun c => decide (c ≠ ')')) c = true := by
      intro c hc
      simp only [decide_eq_true_eq]
      intro h0
      exact hb (h0 ▸ hc)
    rw [tw_append_all hmem, tw_stop (by simp) t, List.append_nil]
  rw [tryAlt_w_unfold, if_pos (pfx_append _ _), List.drop_left, h3, List.drop_left]
  simp [hg]

theorem nsp_arg {a t : Text} (ha : ')' ∉ a)
    (hg : guardOk Guard.notComment t = false) :
    NoSitePrefix writePat a (')' :: t) := by
  intro n hn
  rw [List.drop_append_of_le_length (le_of_lt hn)]
  have hsne : ')' ∉ a.drop n := fun h0 => ha ((List.drop_sublist n a).mem h0)
  rcases hcons : a.drop n with - | ⟨c, s2⟩
  · rw [List.nil_append]
    exact tryMatch_nonws writePat (by decide) t
  · rw [← hcons]
    by_cases hws : wsChar c = true
    · rcases hdw : (a.drop n).dropWhile wsChar with - | ⟨d, s3⟩
      · -- the whole segment suffix is whitespace
        have hall : ∀ x ∈ a.drop n, wsChar x = true :=
          List.dropWhile_eq_nil_iff.mp hdw
        rw [tm_w_eq, tw_append_all hall, tw_stop (by decide) t, List.append_nil]
        rw [if_neg (by
          rw [List.isEmpty_iff, hcons]
          intro h0
          cases h0)]
        rw [dw_append_all hall, List.dropWhile_cons_of_neg (by decide)]
        rw [tryAlt_w_unfold]
        rw [show ("w.Write(".toList) = 'w' :: ".Write(".toList from rfl]
        rw [pfx_cons_ne (by decide)]
        simp
      · have hdne : (a.drop n).dropWhile wsChar ≠ [] := by rw [hdw]; simp
        have htw : ((a.drop n) ++ ')' :: t).takeWhile wsChar
            = (a.drop n).takeWhile wsChar := tw_append_stop hdne _
        rw [tm_w_eq, htw]
        rw [if_neg (by
          rw [List.isEmpty_iff, hcons, List.takeWhile_cons_of_pos hws]
          intro h0
          cases h0)]
        rw [dw_append_stop hdne, hdw]
        by_cases hp : pfx "w.Write(".toList ((d :: s3) ++ ')' :: t) = true
        · have hd3 : ')' ∉ d :: s3 := by
            intro h0
            exact hsne (((List.dropWhile_sublist wsChar).mem (hdw ▸ h0)))
          obtain ⟨b, hb⟩ := pfx_split_noc (by decide) hd3 hp
          have hbne : ')' ∉ b := by
            intro h0
            exact hd3 (by rw [hb]; simp [h0])
          rw [hb, List.append_assoc, tryAlt_w_guardfalse hbne hg]
        · have hp' : pfx "w.Write(".toList ((d :: s3) ++ ')' :: t) = false := by
            simpa using hp
          rw [tryAlt_w_unfold, hp']
          simp
    · rw [hcons, List.cons_append]
      exact tryMatch_nonws writePat (by simpa using hws) _

/-- Within a whitespace run that directly precedes a `w.Write(...)` call
whose lookahead guard fails, no match can start: the attempt reaches the
guard and is rejected. -/
theorem nsp_ws_call {ws A t : Text} (hws : ∀ c ∈ ws, wsChar c = true)
    (hA : ')' ∉ A) (hg : guardOk Guard.notComment t = false) :
    NoSitePrefix writePat ws ("w.Write(".toList ++ (A ++ ')' :: t)) := by
  intro n hn
  rw [List.drop_append_of_le_length (le_of_lt hn)]
  have hall2 : ∀ c ∈ ws.drop n, wsChar c = true :=
    fun c hc => hws c ((List.drop_sublist n ws).mem hc)
  have hlen : (ws.drop n).length ≠ 0 := by rw [List.length_drop]; omega
  have htww : ("w.Write(".toList ++ (A ++ ')' :: t)).takeWhile wsChar = [] := by
    rw [show ("w.Write(".toList ++ (A ++ ')' :: t))
        = 'w' :: (".Write(".toList ++ (A ++ ')' :: t)) from rfl]
    exact tw_stop (by decide) _
  rw [tm_w_eq, tw_append_all hall2, htww, List.append_nil]
  rw [if_neg (by
    rw [List.isEmpty_iff]
    intro h0
    exact hlen (by rw [h0]; rfl))]
  rw [dw_append_all hall2]
  rw [show ("w.Write(".toList ++ (A ++ ')' :: t))
      = 'w' :: (".Write(".toList ++ (A ++ ')' :: t)) from rfl]
  rw [List.dropWhile_cons_of_neg (by decide)]
  rw [show ('w' :: (".Write(".toList ++ (A ++ ')' :: t)))
      = "w.Write(".toList ++ (A ++ ')' :: t) from rfl]
  rw [tryAlt_w_guardfalse hA hg]

theorem tryMatch_w_noParen {l : Text} (h : ')' ∉ l) : tryMatch writePat l = none := by
  rw [tm_w_eq]
  by_cases hw : (l.takeWhile wsChar).isEmpty = true
  · rw [if_pos hw]
  · rw [if_neg hw]
    have hdne : ')' ∉ l.dropWhile wsChar :=
      fun h0 => h ((List.dropWhile_sublist wsChar).mem h0)
    by_cases hp : pfx "w.Write(".toList (l.dropWhile wsChar) = true
    · have hr1ne : ')' ∉ (l.dropWhile wsChar).drop ("w.Write(".toList : Text).length :=
        fun h0 => hdne ((List.drop_sublist _ _).mem h0)
      have harg : ((l.dropWhile wsChar).drop
            ("w.Write(".toList : Text).length).takeWhile (fun c => c ≠ ')')
          = (l.dropWhile wsChar).drop ("w.Write(".toList : Text).length :=
        List.takeWhile_eq_self_iff.mpr
          (fun x hx => decide_eq_true (fun h0 => hr1ne (h0 ▸ hx)))
      rw [tryAlt_w_unfold, if_pos hp, harg, List.drop_length]
    · have hp' : pfx "w.Write(".toList (l.dropWhile wsChar) = false := by
        simpa using hp
      rw [tryAlt_w_unfold, hp']
      simp

theorem reSub_id_noParen {l : Text} (h : ')' ∉ l) : reSub writePat l = l := by
  induction l with
  | nil => rfl
  | cons c rest ih =>
    rw [reSub_cons_none (tryMatch_w_noParen h)]
    rw [ih (fun h0 => h (by simp [h0]))]

/-- Inversion of a successful `w.Write` match: the emitted replacement is
the whitespace run, the discard wrapper, the captured argument (nonempty
and free of `)`), and the trailing comment. -/
theorem tm_w_inv {s repl t : Text} (h : tryMatch writePat s = some (repl, t)) :
    ∃ w A, repl = w ++ ("_, _ = w.Write(".toList
        ++ (A ++ ") // Error logged by HTTP framework".toList))
      ∧ w ≠ [] ∧ (∀ c ∈ w, wsChar c = true) ∧ A ≠ [] ∧ ')' ∉ A := by
  rw [tm_w_eq] at h
  by_cases hw : (s.takeWhile wsChar).isEmpty = true
  · rw [if_pos hw] at h; exact absurd h (by simp)
  · rw [if_neg hw] at h
    rcases ha : tryAlt writePat ⟨"w.Write(".toList, "_, _ = w.Write(".toList,
        ") // Error logged by HTTP framework".toList⟩ (s.dropWhile wsChar)
      with - | ⟨core, rest⟩
    · rw [ha] at h; exact absurd h (by simp)
    · rw [ha] at h
      obtain ⟨h1, -⟩ : s.takeWhile wsChar ++ core = repl ∧ rest = t := by
        simpa using h
      rw [tryAlt_w_unfold] at ha
      split at ha
      · split at ha
        · split at ha
          · next hcond =>
            obtain ⟨h2, -⟩ :
                "_, _ = w.Write(".toList
                    ++ ((s.dropWhile wsChar).drop
                      ("w.Write(".toList : Text).length).takeWhile
                      (fun c => c ≠ ')')
                    ++ ") // Error logged by HTTP framework".toList = core
                  ∧ _ = rest := by
              simpa using ha
            rw [Bool.and_eq_true] at hcond
            obtain ⟨h3, -⟩ := hcond
            refine ⟨s.takeWhile wsChar,
              ((s.dropWhile wsChar).drop
                ("w.Write(".toList : Text).length).takeWhile (fun c => c ≠ ')'),
              ?_, ?_, ?_, ?_, ?_⟩
            · rw [← h1, ← h2]
              simp [List.append_assoc]
            · intro h0
              rw [List.isEmpty_iff] at hw
              exact hw h0
            · exact fun c hc => List.mem_takeWhile_imp hc
            · intro h0
              rw [h0] at h3
              simp at h3
            · intro h0
              have := List.mem_takeWhile_imp h0
              simp at this
          · exact absurd ha (by simp)
        · exact absurd ha (by simp)
      · exact absurd ha (by simp)

/-- No match starts anywhere inside an emitted replacement block: the
trailing comment of the block trips the lookahead guard for its own call
site, and every other whitespace run inside it is followed by a character
other than `w`. -/
theorem nsp_of_eq {p : Pat} {x y y2 : Text} (h : NoSitePrefix p x y)
    (he : y = y2) : NoSitePrefix p x y2 := he ▸ h

theorem nsp_w_block {w A : Text} (hw : ∀ c ∈ w, wsChar c = true) (hA : ')' ∉ A)
    (y : Text) :
    NoSitePrefix writePat
      (w ++ ("_, _ = w.Write(".toList
        ++ (A ++ ") // Error logged by HTTP framework".toList))) y := by
  have hg0 : guardOk Guard.notComment
      (" // Error logged by HTTP framework".toList ++ y) = false := by
    rw [guardNC_false]
    rw [show (" // Error logged by HTTP framework".toList ++ y)
        = ' ' :: ('/' :: '/' :: (" Error logged by HTTP framework".toList ++ y))
        from rfl]
    rw [List.dropWhile_cons_of_pos (by decide), List.dropWhile_cons_of_neg (by decide)]
    simp [pfx]
  have c1 : NoSitePrefix writePat
      ([')'] ++ " // Error logged by HTTP framework".toList) y :=
    nsp_concat (nsp_safe (by decide) _) (nsp_safe (by decide) y)
  have c2 : NoSitePrefix writePat
      (A ++ ([')'] ++ " // Error logged by HTTP framework".toList)) y := by
    refine nsp_concat (nsp_of_eq (nsp_arg hA hg0) ?_) c1
    simp
  have c3 : NoSitePrefix writePat
      ("w.Write(".toList ++ (A ++ ([')'] ++ " // Error logged by HTTP framework".toList))) y :=
    nsp_concat (nsp_safe (by decide) _) c2
  have c4 : NoSitePrefix writePat
      ([' '] ++ ("w.Write(".toList
        ++ (A ++ ([')'] ++ " // Error logged by HTTP framework".toList)))) y := by
    refine nsp_concat (nsp_of_eq (nsp_ws_call (fun c hc => by
      simp only [List.mem_singleton] at hc
      rw [hc]
      decide) hA hg0) ?_) c3
    simp
  have c5 : NoSitePrefix writePat
      ("_, _ =".toList ++ ([' '] ++ ("w.Write(".toList
        ++ (A ++ ([')'] ++ " // Error logged by HTTP framework".toList))))) y :=
    nsp_concat (nsp_safe (by decide) _) c4
  have c6 : NoSitePrefix writePat
      (w ++ ("_, _ =".toList ++ ([' '] ++ ("w.Write(".toList
        ++ (A ++ ([')'] ++ " // Error logged by HTTP framework".toList)))))) y := by
    refine nsp_concat (nsp_of_eq (nsp_wsrun_mismatch (e := '_') hw (by decide)
      (by decide)
      (", _ =".toList ++ (([' '] ++ ("w.Write(".toList
        ++ (A ++ ([')'] ++ " // Error logged by HTTP framework".toList)))) ++ y))) ?_) c5
    rfl
  intro n hn
  have hn2 : n < (w ++ ("_, _ =".toList ++ ([' '] ++ ("w.Write(".toList
      ++ (A ++ ([')'] ++ " // Error logged by HTTP framework".toList)))))).length := by
    simpa [List.length_append] using hn
  have h0 := c6 n hn2
  have heq : (w ++ ("_, _ =".toList ++ ([' '] ++ ("w.Write(".toList
      ++ (A ++ ([')'] ++ " // Error logged by HTTP framework".toList)))))) ++ y
      = (w ++ ("_, _ = w.Write(".toList
        ++ (A ++ ") // Error logged by HTTP framework".toList))) ++ y := by
    simp [List.append_assoc]
  rw [← heq]
  exact h0

/-- If the `w.Write` rule rejects a text (no leading-literal match, no
closing parenthesis, empty argument, or tripped guard), it also rejects
the scanned version of that text: scanning preserves every reason for
failure. -/
theorem tryAlt_w_preserve {R : Text}
    (hfail : tryAlt writePat ⟨"w.Write(".toList, "_, _ = w.Write(".toList,
        ") // Error logged by HTTP framework".toList⟩ R = none) :
    tryAlt writePat ⟨"w.Write(".toList, "_, _ = w.Write(".toList,
        ") // Error logged by HTTP framework".toList⟩ (reSub writePat R) = none := by
  by_cases hp : pfx "w.Write(".toList R = true
  case neg =>
    have hp' : pfx "w.Write(".toList (reSub writePat R) = false := by
      by_cases h0 : pfx "w.Write(".toList (reSub writePat R) = true
      · exact absurd (pfx_reSub_reflect (by decide) h0) hp
      · simpa using h0
    rw [tryAlt_w_unfold, hp']
    simp
  case pos =>
    have hdec := pfx_decomp hp
    have hcopy : reSub writePat R
        = "w.Write(".toList
          ++ reSub writePat (R.drop ("w.Write(".toList : Text).length) := by
      conv_lhs => rw [hdec]
      exact reSub_copy_nonws (by decide) _
    rcases h2 : (R.drop ("w.Write(".toList : Text).length).dropWhile (fun c => c ≠ ')')
      with - | ⟨d, r3⟩
    · -- no closing parenthesis after the literal: scanning is the identity
      have hnp : ')' ∉ R.drop ("w.Write(".toList : Text).length := by
        intro h0
        have := List.dropWhile_eq_nil_iff.mp h2 _ h0
        simp at this
      rw [hcopy, reSub_id_noParen hnp, ← hdec]
      exact hfail
    · have hd : d = ')' := by
        have h3 := dropWhile_cons_head h2
        simpa using h3
      subst hd
      have hr1split : R.drop ("w.Write(".toList : Text).length
          = (R.drop ("w.Write(".toList : Text).length).takeWhile (fun c => c ≠ ')')
            ++ ')' :: r3 := by
        conv_lhs => rw [← List.takeWhile_append_dropWhile (fun c => c ≠ ')')
          (R.drop ("w.Write(".toList : Text).length)]
        rw [h2]
      have hargnp : ')' ∉ (R.drop ("w.Write(".toList : Text).length).takeWhile
          (fun c => c ≠ ')') := by
        intro h0
        have := List.mem_takeWhile_imp h0
        simp at this
      have hcond : (!((R.drop ("w.Write(".toList : Text).length).takeWhile
            (fun c => c ≠ ')')).isEmpty && guardOk Guard.notComment r3) = false := by
        by_cases h0 : (!((R.drop ("w.Write(".toList : Text).length).takeWhile
            (fun c => c ≠ ')')).isEmpty && guardOk Guard.notComment r3) = true
        · rw [tryAlt_w_unfold, if_pos hp, drop_tw_len, h2] at hfail
          have hfail2 : (if (!((R.drop ("w.Write(".toList : Text).length).takeWhile
              (fun c => c ≠ ')')).isEmpty && guardOk Guard.notComment r3) = true then
                some ("_, _ = w.Write(".toList
                  ++ (R.drop ("w.Write(".toList : Text).length).takeWhile
                    (fun c => c ≠ ')')
                  ++ ") // Error logged by HTTP framework".toList, r3)
              else none) = (none : Option (Text × Text)) := hfail
          rw [if_pos h0] at hfail2
          exact absurd hfail2 (by simp)
        · simpa using h0
      by_cases hae : ((R.drop ("w.Write(".toList : Text).length).takeWhile
          (fun c => c ≠ ')')).isEmpty = true
      · -- empty argument: the call reads `w.Write()` and stays rejected
        have hr1 : R.drop ("w.Write(".toList : Text).length = ')' :: r3 := by
          rw [hr1split, List.isEmpty_iff.mp hae, List.nil_append]
        have hres1 : reSub writePat (R.drop ("w.Write(".toList : Text).length)
            = ')' :: reSub writePat r3 := by
          rw [hr1]
          exact reSub_cons_none (tryMatch_nonws writePat (by decide) _)
        rw [hcopy, hres1]
        rw [tryAlt_w_unfold, if_pos (pfx_append _ _), List.drop_left]
        rw [tw_stop (by simp) _]
        simp
      · -- tripped guard: the trailing comment is copied verbatim
        have hgf : guardOk Guard.notComment r3 = false := by
          by_cases h0 : guardOk Guard.notComment r3 = true
          · rw [h0, Bool.and_true] at hcond
            have h5 : ((R.drop ("w.Write(".toList : Text).length).takeWhile
                (fun c => c ≠ ')')).isEmpty = true := by
              simpa using hcond
            exact absurd h5 hae
          · simpa using h0
        have hpfx2 := guardNC_false.mp hgf
        have hg_ws : ∀ c ∈ r3.takeWhile wsChar, wsChar c = true :=
          fun c hc => List.mem_takeWhile_imp hc
        have hr3split : r3 = r3.takeWhile wsChar
            ++ '/' :: '/' :: (r3.dropWhile wsChar).drop 2 := by
          conv_lhs => rw [← List.takeWhile_append_dropWhile wsChar r3]
          congr 1
          have h4 := pfx_decomp hpfx2
          simpa using h4
        have hg2 : guardOk Guard.notComment (r3.takeWhile wsChar
            ++ '/' :: '/' :: (r3.dropWhile wsChar).drop 2) = false := by
          rw [← hr3split]
          exact hgf
        have c1 : NoSitePrefix writePat (r3.takeWhile wsChar ++ "//".toList)
            ((r3.dropWhile wsChar).drop 2) :=
          nsp_concat (nsp_wsrun_mismatch (e := '/') hg_ws (by decide) (by decide)
            ('/' :: (r3.dropWhile wsChar).drop 2))
            (nsp_safe (by decide) _)
        have c2 : NoSitePrefix writePat
            ([')'] ++ (r3.takeWhile wsChar ++ "//".toList))
            ((r3.dropWhile wsChar).drop 2) :=
          nsp_concat (nsp_safe (by decide) _) c1
        have c3 : NoSitePrefix writePat
            ((R.drop ("w.Write(".toList : Text).length).takeWhile (fun c => c ≠ ')')
              ++ ([')'] ++ (r3.takeWhile wsChar ++ "//".toList)))
            ((r3.dropWhile wsChar).drop 2) := by
          refine nsp_concat (nsp_of_eq (nsp_arg hargnp hg2) ?_) c2
          simp
        have hxsplit : R.drop ("w.Write(".toList : Text).length
            = ((R.drop ("w.Write(".toList : Text).length).takeWhile (fun c => c ≠ ')')
              ++ ([')'] ++ (r3.takeWhile wsChar ++ "//".toList)))
              ++ (r3.dropWhile wsChar).drop 2 := by
          conv_lhs => rw [hr1split]
          conv_lhs => rw [hr3split]
          simp [List.append_assoc]
        have hcopy2 : reSub writePat (R.drop ("w.Write(".toList : Text).length)
            = ((R.drop ("w.Write(".toList : Text).length).takeWhile (fun c => c ≠ ')')
              ++ ([')'] ++ (r3.takeWhile wsChar ++ "//".toList)))
              ++ reSub writePat ((r3.dropWhile wsChar).drop 2) := by
          conv_lhs => rw [hxsplit]
          exact reSub_copy c3
        rw [hcopy, hcopy2]
        have hshape : (((R.drop ("w.Write(".toList : Text).length).takeWhile
              (fun c => c ≠ ')')
              ++ ([')'] ++ (r3.takeWhile wsChar ++ "//".toList)))
              ++ reSub writePat ((r3.dropWhile wsChar).drop 2))
            = (R.drop ("w.Write(".toList : Text).length).takeWhile (fun c => c ≠ ')')
              ++ ')' :: (r3.takeWhile wsChar
                ++ '/' :: '/' :: reSub writePat ((r3.dropWhile wsChar).drop 2)) := by
          simp [List.append_assoc]
        rw [hshape]
        have hgf2 : guardOk Guard.notComment (r3.takeWhile wsChar
            ++ '/' :: '/' :: reSub writePat ((r3.dropWhile wsChar).drop 2)) = false := by
          rw [guardNC_false, dw_append_all hg_ws,
            List.dropWhile_cons_of_neg (by decide)]
          simp [pfx]
        exact tryAlt_w_guardfalse hargnp hgf2

/-- Failure of a match at the head of a text is preserved when the tail
is scanned. -/
theorem tm_w_head_preserve {c : Char} {rest : Text}
    (h : tryMatch writePat (c :: rest) = none) :
    tryMatch writePat (c :: reSub writePat rest) = none := by
  by_cases hws : wsChar c = true
  case neg => exact tryMatch_nonws writePat (by simpa using hws) _
  case pos =>
    have hRfix : (rest.dropWhile wsChar).dropWhile wsChar = rest.dropWhile wsChar :=
      dw_idem wsChar rest
    have hfail : tryAlt writePat ⟨"w.Write(".toList, "_, _ = w.Write(".toList,
        ") // Error logged by HTTP framework".toList⟩ (rest.dropWhile wsChar)
        = none := by
      rw [tm_w_eq, List.takeWhile_cons_of_pos hws] at h
      rw [if_neg (by simp)] at h
      rw [List.dropWhile_cons_of_pos hws] at h
      rcases ha : tryAlt writePat ⟨"w.Write(".toList, "_, _ = w.Write(".toList,
          ") // Error logged by HTTP framework".toList⟩ (rest.dropWhile wsChar)
        with - | r
      · rfl
      · rcases r with ⟨core, rest2⟩
        rw [ha] at h
        exact absurd h (by simp)
    have hsplit : rest = rest.takeWhile wsChar ++ rest.dropWhile wsChar :=
      (List.takeWhile_append_dropWhile wsChar rest).symm
    have hcopy : reSub writePat rest
        = rest.takeWhile wsChar ++ reSub writePat (rest.dropWhile wsChar) := by
      conv_lhs => rw [hsplit]
      apply reSub_copy
      intro n hn
      rw [List.drop_append_of_le_length (le_of_lt hn)]
      have hall2 : ∀ x ∈ (rest.takeWhile wsChar).drop n, wsChar x = true :=
        fun x hx => List.mem_takeWhile_imp ((List.drop_sublist _ _).mem hx)
      have hlen : ((rest.takeWhile wsChar).drop n).length ≠ 0 := by
        rw [List.length_drop]; omega
      rw [tm_w_eq, tw_append_all hall2, tw_nil_of_dw_fix hRfix, List.append_nil]
      rw [if_neg (by
        rw [List.isEmpty_iff]
        intro h0
        exact hlen (by rw [h0]; rfl))]
      rw [dw_append_all hall2, hRfix]
      rw [hfail]
    rw [hcopy]
    have hRout_tw : (reSub writePat (rest.dropWhile wsChar)).takeWhile wsChar
        = [] := by
      rcases hR : rest.dropWhile wsChar with - | ⟨d, R2⟩
      · rw [reSub_nil]; rfl
      · have hd : wsChar d = false := dropWhile_cons_head hR
        rw [reSub_cons_none (tryMatch_nonws writePat hd _)]
        exact tw_stop hd _
    have hRout_dw : (reSub writePat (rest.dropWhile wsChar)).dropWhile wsChar
        = reSub writePat (rest.dropWhile wsChar) := by
      rcases hR : rest.dropWhile wsChar with - | ⟨d, R2⟩
      · rw [reSub_nil]; rfl
      · have hd : wsChar d = false := dropWhile_cons_head hR
        rw [reSub_cons_none (tryMatch_nonws writePat hd _)]
        exact List.dropWhile_cons_of_neg (by simp [hd])
    rw [tm_w_eq, List.takeWhile_cons_of_pos hws]
    rw [tw_append_all (fun x hx => List.mem_takeWhile_imp hx), hRout_tw,
      List.append_nil]
    rw [if_neg (by simp)]
    rw [List.dropWhile_cons_of_pos hws,
      dw_append_all (fun x hx => List.mem_takeWhile_imp hx), hRout_dw]
    rw [tryAlt_w_preserve hfail]

/-- The output of the `w.Write` rule contains no match site at all. -/
theorem reSub_w_no_site (l : Text) :
    ∀ n, tryMatch writePat ((reSub writePat l).drop n) = none := by
  have main : ∀ k, ∀ l : Text, l.length ≤ k →
      ∀ n, tryMatch writePat ((reSub writePat l).drop n) = none := by
    intro k
    induction k with
    | zero =>
      intro l hl n
      obtain rfl : l = [] := List.eq_nil_of_length_eq_zero (by omega)
      simp [reSub_nil, tryMatch_nil]
    | succ k ih =>
      intro l hl n
      cases l with
      | nil => simp [reSub_nil, tryMatch_nil]
      | cons c rest =>
        rcases hm : tryMatch writePat (c :: rest) with - | ⟨repl, rest2⟩
        · rw [reSub_cons_none hm]
          cases n with
          | zero => simpa using tm_w_head_preserve hm
          | succ n =>
            rw [List.drop_succ_cons]
            exact ih rest (by simpa using hl) n
        · rw [reSub_cons_some hm]
          obtain ⟨w, A, hrepl, -, hw, -, hA⟩ := tm_w_inv hm
          have hlt := tryMatch_length hm
          have hrest2 : rest2.length ≤ k := by
            simp only [List.length_cons] at hlt hl
            omega
          by_cases hn : n < repl.length
          · rw [hrepl] at hn ⊢
            exact nsp_w_block hw hA (reSub writePat rest2) n hn
          · have h0 : n = repl.length + (n - repl.length) := by omega
            rw [h0, ← List.drop_drop, List.drop_left]
            exact ih rest2 hrest2 _
  exact fun n => main l.length l le_rfl n

/-- The `w.Write` rule is idempotent: its output contains no match site,
so a second application is the identity. -/
theorem fix_write_calls_idem (l : Text) :
    fix_write_calls (fix_write_calls l) = fix_write_calls l := by
  show reSub writePat (reSub writePat l) = reSub writePat l
  exact reSub_no_site (hasSiteB_false_iff.mpr (reSub_w_no_site l))

/-- A `w.Write(...)` call already followed, after optional whitespace, by
a `//` comment is never rewritten: the whole statement, its whitespace,
and the comment opener are copied verbatim, and scanning resumes after
the `//`. -/
theorem fix_write_calls_commented (ws A sp c : Text)
    (hws : ∀ x ∈ ws, wsChar x = true) (hA : ')' ∉ A)
    (hsp : ∀ x ∈ sp, wsChar x = true) :
    fix_write_calls
        (ws ++ ("w.Write(".toList ++ (A ++ ')' :: (sp ++ ('/' :: '/' :: c)))))
      = ws ++ ("w.Write(".toList
          ++ (A ++ ')' :: (sp ++ ('/' :: '/' :: fix_write_calls c)))) := by
  have hg : guardOk Guard.notComment (sp ++ ('/' :: '/' :: c)) = false := by
    rw [guardNC_false, dw_append_all hsp, List.dropWhile_cons_of_neg (by decide)]
    simp [pfx]
  have c1 : NoSitePrefix writePat (sp ++ "//".toList) c :=
    nsp_concat (nsp_wsrun_mismatch (e := '/') hsp (by decide) (by decide) ('/' :: c))
      (nsp_safe (by decide) c)
  have c2 : NoSitePrefix writePat ([')'] ++ (sp ++ "//".toList)) c :=
    nsp_concat (nsp_safe (by decide) _) c1
  have c3 : NoSitePrefix writePat (A ++ ([')'] ++ (sp ++ "//".toList))) c := by
    refine nsp_concat (nsp_of_eq (nsp_arg hA hg) ?_) c2
    simp
  have c4 : NoSitePrefix writePat
      ("w.Write(".toList ++ (A ++ ([')'] ++ (sp ++ "//".toList)))) c :=
    nsp_concat (nsp_safe (by decide) _) c3
  have c5 : NoSitePrefix writePat
      (ws ++ ("w.Write(".toList ++ (A ++ ([')'] ++ (sp ++ "//".toList))))) c := by
    refine nsp_concat (nsp_of_eq (nsp_ws_call hws hA hg) ?_) c4
    simp [List.append_assoc]
  have hsplitT : ws ++ ("w.Write(".toList ++ (A ++ ')' :: (sp ++ ('/' :: '/' :: c))))
      = (ws ++ ("w.Write(".toList ++ (A ++ ([')'] ++ (sp ++ "//".toList))))) ++ c := by
    simp [List.append_assoc]
  show reSub writePat _ = _
  rw [hsplitT, reSub_copy c5]
  show _ = ws ++ ("w.Write(".toList
    ++ (A ++ ')' :: (sp ++ ('/' :: '/' :: reSub writePat c))))
  simp [List.append_assoc]

end Errcheck

namespace Errcheck

/-- Witness for C9 at a concrete readable file. -/
theorem claim_C9_witness :
    (fix_file ⟨"a.go", "\tio.Copy(d, s)\n".toList, true, "", true, ""⟩).written =
      (if applyAllFixes "\tio.Copy(d, s)\n".toList = "\tio.Copy(d, s)\n".toList
       then none
       else if true = true
       then some (applyAllFixes "\tio.Copy(d, s)\n".toList) else none) :=
  claim_C9_frame_condition ⟨"a.go", "\tio.Copy(d, s)\n".toList, true, "", true, ""⟩ rfl

/-- C10.  The negative lookahead `(?!\s*//)` in `fix_write_calls`: a
`w.Write(...)` call already followed, after optional whitespace, by a `//`
comment is left unchanged whatever the comment's content (a deliberate
false negative) — the statement, its whitespace, and the comment opener
are copied verbatim and scanning resumes after the `//` — and this guard
is what makes the rule idempotent: each replacement ends in a `//` comment
right after the re-emitted call, which trips the guard on a second pass,
so reapplying the rule to any output changes nothing. -/
theorem claim_C10_write_lookahead :
    (∀ ws A sp c : Text, (∀ x ∈ ws, wsChar x = true) → ')' ∉ A →
      (∀ x ∈ sp, wsChar x = true) →
      fix_write_calls
          (ws ++ ("w.Write(".toList ++ (A ++ ')' :: (sp ++ ('/' :: '/' :: c)))))
        = ws ++ ("w.Write(".toList
            ++ (A ++ ')' :: (sp ++ ('/' :: '/' :: fix_write_calls c)))))
    ∧ (∀ l : Text, fix_write_calls (fix_write_calls l) = fix_write_calls l) :=
  ⟨fix_write_calls_commented, fix_write_calls_idem⟩

/-- Witness for C10: a concrete commented call is untouched, and a second
application of the rule to a concrete rewritten text changes nothing. -/
theorem claim_C10_witness :
    fix_write_calls ("\t".toList ++ ("w.Write(".toList
        ++ ("data".toList ++ ')' :: (" ".toList ++ ('/' :: '/' :: " ok\n".toList)))))
      = "\t".toList ++ ("w.Write(".toList
          ++ ("data".toList ++ ')' :: (" ".toList
            ++ ('/' :: '/' :: fix_write_calls " ok\n".toList))))
    ∧ fix_write_calls (fix_write_calls "\tw.Write([]byte(s))\n".toList)
        = fix_write_calls "\tw.Write([]byte(s))\n".toList :=
  ⟨claim_C10_write_lookahead.1 "\t".toList "data".toList " ".toList " ok\n".toList
     (by decide) (by decide) (by decide),
   claim_C10_write_lookahead.2 "\tw.Write([]byte(s))\n".toList⟩

end Errcheck
